import Mathlib

/-!
Verification of the race-scraper pipeline (`src/fetch_races.py`) against its
specification. The Python functions are shallowly embedded over a dynamic
value type `PyVal` (the JSON-like values the program manipulates): pure code
becomes Lean functions, and operations that can raise in Python return
`Except PyErr`. Machine floats only ever pass through the pipeline untouched,
so they are represented in exact decimal form (Python's `repr` of a float is
its shortest round-tripping decimal).
-/

/-- Character lists stand in for Python strings throughout. -/
abbrev Str := List Char

/-- Exceptions the embedded operations can raise; the pipeline only ever
branches on `valueError` (the lone `except ValueError` in the filter), so the
constructors carry no payload. -/
inductive PyErr where
  | attributeError
  | typeError
  | keyError
  | indexError
  | valueError
  | requestError
deriving DecidableEq

/-- Dynamic values: what `response.json()` can produce and the program passes
around. A float is `dec m e` = m × 10^-(e+1), an exact decimal with `e + 1`
fractional digits (every float the program touches is only compared and
serialized, never computed with). Dict keys are strings, as in any value
parsed from JSON. -/
inductive PyVal where
  | none
  | bool (b : Bool)
  | int (n : Int)
  | dec (m : Int) (e : Nat)
  | str (s : Str)
  | list (xs : List PyVal)
  | dict (fs : List (Str × PyVal))

/-- Python truthiness: empty containers, zero and `None` are falsy. -/
def pyTruthy : PyVal → Bool
  | .none => false
  | .bool b => b
  | .int n => n != 0
  | .dec m _ => m != 0
  | .str s => !s.isEmpty
  | .list xs => !xs.isEmpty
  | .dict fs => !fs.isEmpty

/-- First value bound to key `k` in an association list (Python dicts have
unique keys, so first-match lookup is exact). -/
def dictGet (fs : List (Str × PyVal)) (k : Str) : Option PyVal :=
  match fs with
  | [] => Option.none
  | (k1, v) :: rest => if k1 = k then some v else dictGet rest k

/-- Embeds `v.get(k, d)`: dictionaries answer the lookup with default `d`;
any other value has no `get` attribute and raises. -/
def pyGet (v : PyVal) (k : Str) (d : PyVal) : Except PyErr PyVal :=
  match v with
  | .dict fs => .ok ((dictGet fs k).getD d)
  | _ => .error .attributeError

/-- Embeds one-argument `v.get(k)`, whose implicit default is `None`. -/
def pyGet1 (v : PyVal) (k : Str) : Except PyErr PyVal :=
  pyGet v k .none

/-- Embeds `x or y`: the left operand if truthy, else the right. -/
def pyOr (a b : PyVal) : PyVal :=
  if pyTruthy a then a else b

/-- ASCII lowering of one character (the difficulty keywords and kid keywords
are all ASCII, which is the fragment of `str.lower` the pipeline exercises). -/
def lowerChar (c : Char) : Char :=
  if 'A' ≤ c ∧ c ≤ 'Z' then Char.ofNat (c.toNat + 32) else c

/-- Embeds `s.lower()`. -/
def pyLower (s : Str) : Str := s.map lowerChar

/-- Embeds `v.lower()` on a dynamic value: only strings have the method. -/
def pyLowerE (v : PyVal) : Except PyErr Str :=
  match v with
  | .str s => .ok (pyLower s)
  | _ => .error .attributeError

/-- Embeds the Python substring test `needle in hay`. -/
def containsSub (needle : Str) : Str → Bool
  | [] => needle.isEmpty
  | c :: rest => needle.isPrefixOf (c :: rest) || containsSub needle rest

/-- Embeds `for x in v`: lists yield their elements, strings their characters
(as one-character strings), dicts their keys; anything else raises. -/
def iterElems (v : PyVal) : Except PyErr (List PyVal) :=
  match v with
  | .list xs => .ok xs
  | .str s => .ok (s.map (fun c => .str [c]))
  | .dict fs => .ok (fs.map (fun f => .str f.1))
  | _ => .error .typeError

/-- Decimal digit character for `k % 10`. -/
def digitChar (k : Nat) : Char := Char.ofNat ('0'.toNat + k % 10)

/-- Decimal digits of `n`, most significant first, pushed onto `acc`. The
first argument is fuel (any amount at least the digit count suffices; `natDec`
passes plenty), keeping the recursion structural. -/
def natDecAux : Nat → Nat → Str → Str
  | 0, n, acc => digitChar n :: acc
  | fuel + 1, n, acc =>
      if n < 10 then digitChar n :: acc
      else natDecAux fuel (n / 10) (digitChar (n % 10) :: acc)

/-- Decimal rendering of a natural number. -/
def natDec (n : Nat) : Str := natDecAux n n []

/-- Decimal rendering of an integer, sign first. -/
def intDec (i : Int) : Str :=
  (if i < 0 then ['-'] else []) ++ natDec i.natAbs

/-- Exactly `width` decimal digits of `n` (zero-padded on the left). -/
def natDecPad (n : Nat) : Nat → Str
  | 0 => []
  | width + 1 => natDecPad (n / 10) width ++ [digitChar (n % 10)]

/-- Decimal rendering of the float `dec m e`: sign, integer part, point, and
its `e + 1` fractional digits — the form Python's `repr` prints. -/
def decRender (m : Int) (e : Nat) : Str :=
  (if m < 0 then ['-'] else []) ++
    natDec (m.natAbs / 10 ^ (e + 1)) ++ '.' :: natDecPad (m.natAbs % 10 ^ (e + 1)) (e + 1)

/-- Simplified `repr` of a string: single quotes, with backslash and quote
escaped (Python's alternate double-quoting of strings that contain a quote is
not modeled; no claim depends on it). -/
def reprStrEsc (c : Char) : Str :=
  if c = '\\' then ['\\', '\\'] else if c = '\'' then ['\\', '\''] else [c]

/-- Python `repr` of a string: quoted and escaped. -/
def pyReprOfStr (s : Str) : Str := '\'' :: (s.flatMap reprStrEsc ++ ['\''])

mutual
/-- Embeds Python `repr` (exactly what `str` does on containers). -/
def pyRepr : PyVal → Str
  | .none => "None".data
  | .bool true => "True".data
  | .bool false => "False".data
  | .int n => intDec n
  | .dec m e => decRender m e
  | .str s => pyReprOfStr s
  | .list [] => ['[', ']']
  | .list (x :: xs) => '[' :: (pyRepr x ++ (pyReprItems xs ++ [']']))
  | .dict [] => ['\x7b', '\x7d']
  | .dict ((k, v) :: fs) =>
      '\x7b' :: (pyReprOfStr k ++ (':' :: ' ' :: (pyRepr v ++ (pyReprFields fs ++ ['\x7d']))))
/-- Second and later container items of a `repr`, comma-and-space separated. -/
def pyReprItems : List PyVal → Str
  | [] => []
  | x :: xs => ',' :: ' ' :: (pyRepr x ++ pyReprItems xs)
/-- Second and later dict entries of a `repr`. -/
def pyReprFields : List (Str × PyVal) → Str
  | [] => []
  | (k, v) :: fs =>
      ',' :: ' ' :: (pyReprOfStr k ++ (':' :: ' ' :: (pyRepr v ++ pyReprFields fs)))
end

/-- Embeds `str(v)` (as used by f-strings): strings stay themselves, all other
values render as their `repr`. -/
def pyStr (v : PyVal) : Str :=
  match v with
  | .str s => s
  | v => pyRepr v

/-- Embeds `determine_difficulty` (fetch_races.py:111-128): lowercase the
distance label, then first-match-wins over the ordered keyword groups. -/
def determine_difficulty (distance : Str) : Str :=
  let dl := pyLower distance
  if ["1k", "1 mile", "1mi", "fun run", "kids"].any (fun x => containsSub x.data dl) then
    "Beginner".data
  else if ["5k", "3.1", "3 mile"].any (fun x => containsSub x.data dl) then
    "Easy".data
  else if ["10k", "6.2", "6 mile"].any (fun x => containsSub x.data dl) then
    "Moderate".data
  else if ["half marathon", "13.1", "15k"].any (fun x => containsSub x.data dl) then
    "Hard".data
  else if ["marathon", "26.2", "full"].any (fun x => containsSub x.data dl) then
    "Expert".data
  else if ["ultra", "50k", "50 mile", "100k", "100 mile"].any (fun x => containsSub x.data dl) then
    "Extreme".data
  else
    "Moderate".data

/-- The keywords whose presence in an event name marks a kids/family event
(fetch_races.py:135). -/
def kidKeywords : List Str :=
  ["kids", "children", "family", "youth", "junior"].map String.data

/-- Embeds `has_kids_race` (fetch_races.py:130-137) over the already-iterated
event list: `event.get('name', '') or ''`, lowered (raising on a truthy
non-string), then keyword search with early return on the first hit. -/
def has_kids_race : List PyVal → Except PyErr Bool
  | [] => .ok false
  | ev :: rest =>
      match pyGet ev "name".data (.str []) with
      | .error e => .error e
      | .ok n0 =>
          match pyLowerE (pyOr n0 (.str [])) with
          | .error e => .error e
          | .ok s =>
              if kidKeywords.any (fun k => containsSub k s) then .ok true
              else has_kids_race rest

/-- The fixed fallback image URL (fetch_races.py:85 and fetch_races.py:109). -/
def fallbackImageUrl : Str :=
  "https://images.unsplash.com/photo-1449824913935-59a10b8d2000?w=800&h=600&fit=crop&crop=center".data

/-- Embeds the `self.state_names` dict; indexing it with an unknown region
code raises `KeyError`, reported by the caller below. -/
def state_names (st : Str) : Option Str :=
  if st = "WA".data then some "Washington".data
  else if st = "OR".data then some "Oregon".data
  else if st = "CA".data then some "California".data
  else Option.none

/-- Embeds subscription `v[idx]`: dict lookup by string key (`KeyError` when
absent), list and string indexing with Python's negative-index rule
(`IndexError` out of range), `TypeError` otherwise. -/
def pySubscr (v : PyVal) (idx : PyVal) : Except PyErr PyVal :=
  match v, idx with
  | .dict fs, .str k =>
      match dictGet fs k with
      | some w => .ok w
      | Option.none => .error .keyError
  | .dict _, _ => .error .keyError
  | .list xs, .int i =>
      let j : Int := if i < 0 then (xs.length : Int) + i else i
      if h : 0 ≤ j ∧ j.toNat < xs.length then .ok (xs.get ⟨j.toNat, h.2⟩)
      else .error .indexError
  | .str s, .int i =>
      let j : Int := if i < 0 then (s.length : Int) + i else i
      if h : 0 ≤ j ∧ j.toNat < s.length then .ok (.str [s.get ⟨j.toNat, h.2⟩])
      else .error .indexError
  | _, _ => .error .typeError

/-- The body of `get_city_image`'s `try` block (fetch_races.py:87-103):
`some v` when the result set is truthy and the extraction chain yields `v`,
`none` when the block falls through to the fallback, an error when any step
raises. The network call, `raise_for_status` and `response.json()` are
abstracted as `oracle`, mapping the query string to a parsed response or a
raised error. -/
def imageLookup (oracle : Str → Except PyErr PyVal) (city : PyVal) (st : Str) :
    Except PyErr (Option PyVal) :=
  match state_names st with
  | Option.none => .error .keyError
  | some stateName =>
      match oracle (pyStr city ++ ' ' :: (stateName ++ ' ' :: "skyline".data)) with
      | .error e => .error e
      | .ok data =>
          match pyGet1 data "results".data with
          | .error e => .error e
          | .ok results =>
              if pyTruthy results then
                match pySubscr data (.str "results".data) with
                | .error e => .error e
                | .ok r0 =>
                    match pySubscr r0 (.int 0) with
                    | .error e => .error e
                    | .ok first =>
                        match pySubscr first (.str "urls".data) with
                        | .error e => .error e
                        | .ok urls =>
                            match pySubscr urls (.str "regular".data) with
                            | .error e => .error e
                            | .ok regular => .ok (some regular)
              else .ok Option.none

/-- Embeds `get_city_image` (fetch_races.py:82-109): without a credential the
fixed fallback URL is returned at once; with one, any raised error or a falsy
result set falls back too, and only a successful chain returns the response's
`urls.regular` value. -/
def get_city_image (key : Option Str) (oracle : Str → Except PyErr PyVal)
    (city : PyVal) (st : Str) : PyVal :=
  match key with
  | Option.none => .str fallbackImageUrl
  | some _ =>
      match imageLookup oracle city st with
      | .ok (some url) => url
      | _ => .str fallbackImageUrl

/-- One output record: the dict literal of fetch_races.py:168-182 (and 188-202)
with its statically-known keys as fields, in insertion order. Fields the code
merely copies hold dynamic values; fields it computes are typed. -/
structure OutputRace where
  id : Str
  name : PyVal
  date : PyVal
  city : PyVal
  state : Str
  distance : Str
  difficulty : Str
  description : PyVal
  imageUrl : PyVal
  latitude : PyVal
  longitude : PyVal
  hasKidsRace : Bool
  registrationUrl : PyVal

/-- The per-race values `transform_race_data` extracts before its event loop
(fetch_races.py:144-158). -/
structure RaceFields where
  race_id : PyVal
  name : PyVal
  next_date : PyVal
  city : PyVal
  description : PyVal
  registration_url : PyVal
  events : PyVal
  latitude : PyVal
  longitude : PyVal

/-- Embeds fetch_races.py:144-158 in evaluation order: each `race.get` raises
unless `race` is a dict, and the city comes from `address.get('city', ...)`
only when `address` is truthy (raising when it is truthy but not a dict). -/
def extractRaceFields (race : PyVal) : Except PyErr RaceFields := do
  let race_id ← pyGet race "race_id".data (.int 0)
  let name ← pyGet race "name".data (.str "Unknown Race".data)
  let next_date ← pyGet race "next_date".data (.str [])
  let address ← pyGet race "address".data (.dict [])
  let city ←
    if pyTruthy address then pyGet address "city".data (.str "Unknown".data)
    else pure (PyVal.str "Unknown".data)
  let description ← pyGet race "description".data (.str [])
  let registration_url ← pyGet race "url".data (.str [])
  let events ← pyGet race "events".data (.list [])
  let latitude ← pyGet race "latitude".data (.dec 0 0)
  let longitude ← pyGet race "longitude".data (.dec 0 0)
  pure ⟨race_id, name, next_date, city, description, registration_url, events, latitude, longitude⟩

/-- One iteration of the event loop (fetch_races.py:164-184) in evaluation
order: the distance lookup, the difficulty (whose `.lower()` requires the
distance to be a string), the composite id, and the kids flag recomputed from
the full event list. The record keeps the original (unlowered) distance. -/
def processEvent (f : RaceFields) (st : Str) (imageUrl : PyVal)
    (allEvents : List PyVal) (event : PyVal) : Except PyErr OutputRace :=
  match pyGet event "distance".data (.str "Unknown".data) with
  | .error e => .error e
  | .ok distance =>
      match distance with
      | .str dstr =>
          match pyGet event "event_id".data (.int 0) with
          | .error e => .error e
          | .ok event_id =>
              match has_kids_race allEvents with
              | .error e => .error e
              | .ok kids =>
                  .ok ⟨pyStr f.race_id ++ '_' :: pyStr event_id, f.name, f.next_date, f.city,
                       st, dstr, determine_difficulty dstr, f.description, imageUrl,
                       f.latitude, f.longitude, kids, f.registration_url⟩
      | _ => .error .attributeError

/-- The event loop with its accumulator `transformed_races`: records appended
before a raised exception survive (the Python list was mutated in place), and
the exception is reported alongside them. -/
def processEvents (f : RaceFields) (st : Str) (imageUrl : PyVal)
    (allEvents : List PyVal) : List PyVal → List OutputRace → List OutputRace × Option PyErr
  | [], acc => (acc.reverse, Option.none)
  | ev :: rest, acc =>
      match processEvent f st imageUrl allEvents ev with
      | .ok r => processEvents f st imageUrl allEvents rest (r :: acc)
      | .error e => (acc.reverse, some e)

/-- The zero-events record (fetch_races.py:188-202): bare race id, distance
"Unknown", difficulty "Moderate", kids flag hard-coded to `False`. -/
def defaultRecord (f : RaceFields) (st : Str) (imageUrl : PyVal) : OutputRace :=
  ⟨pyStr f.race_id, f.name, f.next_date, f.city, st, "Unknown".data, "Moderate".data,
   f.description, imageUrl, f.latitude, f.longitude, false, f.registration_url⟩

/-- Embeds `transform_race_data` (fetch_races.py:139-208) together with its
exception trace: the records the call returns, plus the exception the `try`
block raised, if any. `getImage` abstracts `self.get_city_image`; instantiate
it with `get_city_image key oracle` for the full pipeline. -/
def transformRun (getImage : PyVal → Str → PyVal) (race : PyVal) (st : Str) :
    List OutputRace × Option PyErr :=
  match extractRaceFields race with
  | .error e => ([], some e)
  | .ok f =>
      let imageUrl := getImage f.city st
      match iterElems f.events with
      | .error e => ([], some e)
      | .ok evs =>
          match processEvents f st imageUrl evs evs [] with
          | (recs, some e) => (recs, some e)
          | (recs, Option.none) =>
              if pyTruthy f.events then (recs, Option.none)
              else (recs ++ [defaultRecord f st imageUrl], Option.none)

/-- The value `transform_race_data` returns: the catch-all handler only logs,
so the call returns whatever `transformed_races` holds when the `try` block
ends, normally or by exception. -/
def transform_race_data (getImage : PyVal → Str → PyVal) (race : PyVal) (st : Str) :
    List OutputRace :=
  (transformRun getImage race st).1

/-- A calendar date as `datetime.date` stores it. -/
structure PyDate where
  year : Nat
  month : Nat
  day : Nat
deriving DecidableEq

/-- Comparison key realizing `datetime.date`'s ordering (months and days each
occupy two decimal digits, so key order is lexicographic order). -/
def dateKey (d : PyDate) : Nat := (d.year * 100 + d.month) * 100 + d.day

/-- Embeds the comparison `race_date >= today`. -/
def dateGe (a b : PyDate) : Bool := dateKey b ≤ dateKey a

/-- Length of a month, with the Gregorian leap rule for February. -/
def daysInMonth (y m : Nat) : Nat :=
  if m = 2 then (if y % 4 = 0 ∧ (y % 100 ≠ 0 ∨ y % 400 = 0) then 29 else 28)
  else if m = 4 ∨ m = 6 ∨ m = 9 ∨ m = 11 then 30
  else 31

def isDig (c : Char) : Bool := '0' ≤ c && c ≤ '9'

/-- Numeric value of a run of decimal digit characters. -/
def digitsVal (ds : Str) : Nat :=
  ds.foldl (fun acc c => acc * 10 + (c.toNat - '0'.toNat)) 0

/-- Splits a leading run of digits off a string. -/
def grabDigits : Str → Str × Str
  | [] => ([], [])
  | c :: rest =>
      if isDig c then
        let (ds, r) := grabDigits rest
        (c :: ds, r)
      else ([], c :: rest)

/-- Embeds `datetime.strptime(s, '%m/%d/%Y').date()`: CPython matches `%m`
and `%d` as one or two digits within range (no bare zero), `%Y` as exactly
four digits, requires the whole string to match, and the `datetime`
constructor then rejects day numbers past the month's end and years below
`MINYEAR = 1`. -/
def parseMMDDYYYY (s : Str) : Option PyDate :=
  let (mds, r1) := grabDigits s
  match r1 with
  | '/' :: r2 =>
      let (dds, r3) := grabDigits r2
      match r3 with
      | '/' :: r4 =>
          let (yds, r5) := grabDigits r4
          let m := digitsVal mds
          let d := digitsVal dds
          let y := digitsVal yds
          if r5.isEmpty ∧ (mds.length = 1 ∨ mds.length = 2) ∧ 1 ≤ m ∧ m ≤ 12 ∧
              (dds.length = 1 ∨ dds.length = 2) ∧ 1 ≤ d ∧ d ≤ 31 ∧ yds.length = 4 ∧
              1 ≤ y ∧ d ≤ daysInMonth y m then
            some ⟨y, m, d⟩
          else Option.none
      | _ => Option.none
  | _ => Option.none

/-- Embeds `datetime.strptime(v, '%m/%d/%Y')` on a dynamic value: a failing
parse raises `ValueError`; a non-string argument raises `TypeError`, which the
filter's `except ValueError` does not catch. -/
def strptimeDyn (v : PyVal) : Except PyErr PyDate :=
  match v with
  | .str s =>
      match parseMMDDYYYY s with
      | some d => .ok d
      | Option.none => .error .valueError
  | _ => .error .typeError

/-- Embeds `filter_future_races` (fetch_races.py:210-230). `today` is read
once before the loop and passed in here. A record is appended when its date is
falsy, parses to today or later, or fails to parse with `ValueError`; any
other exception (a truthy non-string date) propagates and aborts the call,
which is what an overall `.error` result models. -/
def filter_future_races (today : PyDate) : List OutputRace → Except PyErr (List OutputRace)
  | [] => .ok []
  | r :: rest =>
      if pyTruthy r.date then
        match strptimeDyn r.date with
        | .ok d =>
            if dateGe d today then
              (filter_future_races today rest).map (fun tail => r :: tail)
            else filter_future_races today rest
        | .error .valueError => (filter_future_races today rest).map (fun tail => r :: tail)
        | .error e => .error e
      else (filter_future_races today rest).map (fun tail => r :: tail)

/-- Spaces for one indentation stop. -/
def spaces (n : Nat) : Str := List.replicate n ' '

/-- Hexadecimal digit character (lowercase letters), for `n < 16`. -/
def hexChar (n : Nat) : Char :=
  if n < 10 then digitChar n else Char.ofNat ('a'.toNat + (n - 10))

/-- JSON string escaping as `json.dump(..., ensure_ascii=False)` performs it:
named escapes for backslash, quote and the usual control characters, a
lowercase `\u00xx` form for the remaining control characters, every other
character written literally. -/
def escChar (c : Char) : Str :=
  if c = '"' then ['\\', '"']
  else if c = '\\' then ['\\', '\\']
  else if c = '\n' then ['\\', 'n']
  else if c = '\r' then ['\\', 'r']
  else if c = '\t' then ['\\', 't']
  else if c = Char.ofNat 8 then ['\\', 'b']
  else if c = Char.ofNat 12 then ['\\', 'f']
  else if c.toNat < 32 then
    ['\\', 'u', '0', '0', hexChar (c.toNat / 16), hexChar (c.toNat % 16)]
  else [c]

/-- A JSON string literal: quote, escaped body, quote. -/
def dumpStr (s : Str) : Str := '"' :: (s.flatMap escChar ++ ['"'])

mutual
/-- The document text `json.dump(v, f, indent=2, ensure_ascii=False)` writes
for a value sitting at indentation `ind`: scalars inline; non-empty arrays and
objects open with a newline, put each element on its own line two spaces
deeper, and close on a fresh line at the old indentation. -/
def dumpVal (ind : Nat) : PyVal → Str
  | .none => "null".data
  | .bool true => "true".data
  | .bool false => "false".data
  | .int n => intDec n
  | .dec m e => decRender m e
  | .str s => dumpStr s
  | .list [] => ['[', ']']
  | .list (x :: xs) =>
      '[' :: '\n' :: (spaces (ind + 2) ++ (dumpVal (ind + 2) x ++ (dumpItems (ind + 2) xs
        ++ '\n' :: (spaces ind ++ [']']))))
  | .dict [] => ['\x7b', '\x7d']
  | .dict ((k, v) :: fs) =>
      '\x7b' :: '\n' :: (spaces (ind + 2) ++ (dumpStr k ++ ':' :: ' ' :: (dumpVal (ind + 2) v
        ++ (dumpEntries (ind + 2) fs ++ '\n' :: (spaces ind ++ ['\x7d'])))))
/-- Second and later array elements: separator `,` then newline and indent. -/
def dumpItems (ind : Nat) : List PyVal → Str
  | [] => []
  | x :: xs => ',' :: '\n' :: (spaces ind ++ (dumpVal ind x ++ dumpItems ind xs))
/-- Second and later object members: separator, newline, indent, `"key": v`. -/
def dumpEntries (ind : Nat) : List (Str × PyVal) → Str
  | [] => []
  | (k, v) :: fs =>
      ',' :: '\n' :: (spaces ind ++ (dumpStr k ++ ':' :: ' ' :: (dumpVal ind v
        ++ dumpEntries ind fs)))
end

def isSpace (c : Char) : Bool := c = ' ' || c = '\n' || c = '\t' || c = '\r'

/-- Drops leading JSON whitespace. -/
def skipSpace : Str → Str
  | [] => []
  | c :: rest => if isSpace c then skipSpace rest else c :: rest

/-- Inverse of the named escapes. -/
def unescChar (c : Char) : Option Char :=
  if c = '"' ∨ c = '\\' ∨ c = '/' then some c
  else if c = 'n' then some '\n'
  else if c = 'r' then some '\r'
  else if c = 't' then some '\t'
  else if c = 'b' then some (Char.ofNat 8)
  else if c = 'f' then some (Char.ofNat 12)
  else Option.none

/-- Value of a hexadecimal digit character. -/
def hexDigVal (c : Char) : Option Nat :=
  if '0' ≤ c ∧ c ≤ '9' then some (c.toNat - '0'.toNat)
  else if 'a' ≤ c ∧ c ≤ 'f' then some (c.toNat - 'a'.toNat + 10)
  else if 'A' ≤ c ∧ c ≤ 'F' then some (c.toNat - 'A'.toNat + 10)
  else Option.none

/-- Reads a string body up to its closing quote, undoing escapes. -/
def readStrBody : Str → Str → Option (Str × Str)
  | [], _ => Option.none
  | c :: rest, acc =>
      if c = '"' then some (acc.reverse, rest)
      else if c = '\\' then
        match rest with
        | 'u' :: a :: b :: c2 :: d :: rest2 =>
            (match hexDigVal a, hexDigVal b, hexDigVal c2, hexDigVal d with
             | some va, some vb, some vc, some vd =>
                 readStrBody rest2 (Char.ofNat (((va * 16 + vb) * 16 + vc) * 16 + vd) :: acc)
             | _, _, _, _ => Option.none)
        | e :: rest2 =>
            (match unescChar e with
             | some ch => readStrBody rest2 (ch :: acc)
             | Option.none => Option.none)
        | [] => Option.none
      else readStrBody rest (c :: acc)

/-- A remainder that cannot extend a rendered number: empty, or headed by
neither a digit nor a point. Every separator the writer emits (a comma, a
newline, end of input) qualifies. -/
def numSafe : Str → Bool
  | [] => true
  | c :: _ => !(isDig c || c = '.')

/-- Reads the digits of a decimal number after its optional sign: an integer
digit run, then an optional fractional run — an `int` without a point, a
`dec` float with one. (The writer never emits exponent notation, which is
outside the model.) -/
def readNumCore (neg : Bool) (cs1 : Str) : Option (PyVal × Str) :=
  match grabDigits cs1 with
  | (ids, cs2) =>
      if ids.isEmpty then Option.none
      else
        match cs2 with
        | '.' :: r =>
            (match grabDigits r with
             | (fds, cs3) =>
                 if fds.isEmpty then Option.none
                 else
                   some (.dec
                     (if neg then -(digitsVal ids * 10 ^ fds.length + digitsVal fds : Nat)
                      else (digitsVal ids * 10 ^ fds.length + digitsVal fds : Nat))
                     (fds.length - 1), cs3))
        | _ =>
            some (.int (if neg then -(digitsVal ids : Nat) else (digitsVal ids : Nat)), cs2)

/-- Reads a decimal number: an optional minus sign, then its digits. -/
def readNum (cs : Str) : Option (PyVal × Str) :=
  match cs with
  | '-' :: r => readNumCore true r
  | _ => readNumCore false cs

mutual
/-- Reads one JSON value after optional whitespace. The recursion is bounded
by `fuel`; any fuel beyond the input length suffices. -/
def readVal : Nat → Str → Option (PyVal × Str)
  | 0, _ => Option.none
  | fuel + 1, cs =>
      match skipSpace cs with
      | 'n' :: 'u' :: 'l' :: 'l' :: r => some (.none, r)
      | 't' :: 'r' :: 'u' :: 'e' :: r => some (.bool true, r)
      | 'f' :: 'a' :: 'l' :: 's' :: 'e' :: r => some (.bool false, r)
      | '"' :: r => (readStrBody r []).map (fun p => (.str p.1, p.2))
      | '[' :: r =>
          (match skipSpace r with
           | ']' :: r2 => some (.list [], r2)
           | r2 => (readItems fuel r2).map (fun p => (.list p.1, p.2)))
      | '\x7b' :: r =>
          (match skipSpace r with
           | '\x7d' :: r2 => some (.dict [], r2)
           | r2 => (readEntries fuel r2).map (fun p => (.dict p.1, p.2)))
      | c :: r => if c = '-' || isDig c then readNum (c :: r) else Option.none
      | [] => Option.none
/-- Reads one-or-more comma-separated array elements and the closing `]`. -/
def readItems : Nat → Str → Option (List PyVal × Str)
  | 0, _ => Option.none
  | fuel + 1, cs =>
      (readVal fuel cs).bind (fun vr =>
        match skipSpace vr.2 with
        | ',' :: r2 => (readItems fuel r2).map (fun p => (vr.1 :: p.1, p.2))
        | ']' :: r2 => some ([vr.1], r2)
        | _ => Option.none)
/-- Reads one-or-more comma-separated object members and the closing brace. -/
def readEntries : Nat → Str → Option (List (Str × PyVal) × Str)
  | 0, _ => Option.none
  | fuel + 1, cs =>
      match skipSpace cs with
      | '"' :: r =>
          (readStrBody r []).bind (fun kr =>
            match skipSpace kr.2 with
            | ':' :: r2 =>
                (readVal fuel r2).bind (fun vr =>
                  match skipSpace vr.2 with
                  | ',' :: r4 =>
                      (readEntries fuel r4).map (fun p => ((kr.1, vr.1) :: p.1, p.2))
                  | '\x7d' :: r4 => some ([(kr.1, vr.1)], r4)
                  | _ => Option.none)
            | _ => Option.none)
      | _ => Option.none
end

/-- Embeds parsing the written document back: one value, then nothing but
trailing whitespace. -/
def json_loads (s : Str) : Option PyVal :=
  match readVal (s.length + 1) s with
  | some (v, r) => if (skipSpace r).isEmpty then some v else Option.none
  | Option.none => Option.none

/-- Encodes one output record as the JSON object `json.dump` serializes: the
dict literal's keys in insertion order. -/
def OutputRace.toPy (r : OutputRace) : PyVal :=
  .dict [("id".data, .str r.id), ("name".data, r.name), ("date".data, r.date),
         ("city".data, r.city), ("state".data, .str r.state),
         ("distance".data, .str r.distance), ("difficulty".data, .str r.difficulty),
         ("description".data, r.description), ("imageUrl".data, r.imageUrl),
         ("latitude".data, r.latitude), ("longitude".data, r.longitude),
         ("hasKidsRace".data, .bool r.hasKidsRace), ("registrationUrl".data, r.registrationUrl)]

/-- Embeds `save_to_json` (fetch_races.py:268-275): the document text
`json.dump(races, f, indent=2, ensure_ascii=False)` writes to the file. -/
def save_to_json (races : List OutputRace) : Str :=
  dumpVal 0 (.list (races.map OutputRace.toPy))

/-! ### Spec-side definitions (written from the specification's words) and
concrete inputs used by witnesses and counterexamples. -/

/-- True exactly on string values. -/
def isStrVal : PyVal → Bool
  | .str _ => true
  | _ => false

/-- The string inside a string value, or a default. -/
def strValOr (v : PyVal) (d : Str) : Str :=
  match v with
  | .str s => s
  | _ => d

/-- A well-typed raw event per the spec's data model: a dict whose distance
(when present) is a string and whose name (when present) is a string or
falsy — exactly the events the loop body processes without raising. -/
def wfEvent (ev : PyVal) : Bool :=
  match ev with
  | .dict fs =>
      isStrVal ((dictGet fs "distance".data).getD (.str "Unknown".data)) &&
        isStrVal (pyOr ((dictGet fs "name".data).getD (.str [])) (.str []))
  | _ => false

/-- The distance label of a well-formed event (`event.get('distance', 'Unknown')`). -/
def eventDistanceStr (ev : PyVal) : Str :=
  match ev with
  | .dict fs => strValOr ((dictGet fs "distance".data).getD (.str "Unknown".data)) "Unknown".data
  | _ => "Unknown".data

/-- The name string an event contributes to the kids check, with the `or ''`
default (a falsy or missing name counts as the empty string). -/
def eventNameStr (ev : PyVal) : Str :=
  match ev with
  | .dict fs => strValOr (pyOr ((dictGet fs "name".data).getD (.str [])) (.str [])) []
  | _ => []

/-- The event id the composite record id uses (`event.get('event_id', 0)`). -/
def eventIdOf (ev : PyVal) : PyVal :=
  match ev with
  | .dict fs => (dictGet fs "event_id".data).getD (.int 0)
  | _ => .int 0

/-- The record one well-formed event yields: the loop body's dict literal,
with `kids` the per-race flag of the full event list. -/
def eventRecord (f : RaceFields) (st : Str) (img : PyVal) (kids : Bool) (ev : PyVal) :
    OutputRace :=
  ⟨pyStr f.race_id ++ '_' :: pyStr (eventIdOf ev), f.name, f.next_date, f.city, st,
   eventDistanceStr ev, determine_difficulty (eventDistanceStr ev), f.description, img,
   f.latitude, f.longitude, kids, f.registration_url⟩

/-- Spec-side kids flag (claim C7's wording): some event's name,
case-insensitively, contains one of the kid keywords. -/
def specHasKids (evs : List PyVal) : Bool :=
  evs.any (fun ev => kidKeywords.any (fun k => containsSub k (pyLower (eventNameStr ev))))

/-- Spec-side rule table of claim C4: the ordered keyword groups with their
difficulty labels. -/
def difficultyRules : List (List String × String) :=
  [(["1k", "1 mile", "1mi", "fun run", "kids"], "Beginner"),
   (["5k", "3.1", "3 mile"], "Easy"),
   (["10k", "6.2", "6 mile"], "Moderate"),
   (["half marathon", "13.1", "15k"], "Hard"),
   (["marathon", "26.2", "full"], "Expert"),
   (["ultra", "50k", "50 mile", "100k", "100 mile"], "Extreme")]

/-- Spec-side first-match-wins evaluation of an ordered rule table over the
lowered label, defaulting to "Moderate". -/
def firstMatchDifficulty (dl : Str) : List (List String × String) → Str
  | [] => "Moderate".data
  | (kws, label) :: rest =>
      if kws.any (fun k => containsSub k.data dl) then label.data
      else firstMatchDifficulty dl rest

/-- The date string of a record whose date field is a string. -/
def dateStrOf (r : OutputRace) : Str :=
  match r.date with
  | .str s => s
  | _ => []

/-- Spec-side keep predicate of claim C3: a record is retained exactly when
its date string is empty, fails to parse in month/day/year format, or parses
to today or later. -/
def specKeep (today : PyDate) (dateStr : Str) : Bool :=
  dateStr.isEmpty ||
    (match parseMMDDYYYY dateStr with
     | Option.none => true
     | some d => dateGe d today)

/-- The pipeline's image getter when no credential is configured (the oracle
is irrelevant: it is never consulted). -/
def noKeyImage : PyVal → Str → PyVal :=
  get_city_image Option.none (fun _ => .error .requestError)

/-- A race whose two events share event id 5 (counterexample input). -/
def dupIdRace : PyVal :=
  .dict [("race_id".data, .int 1),
         ("events".data, .list
           [.dict [("event_id".data, .int 5), ("distance".data, .str "5K".data)],
            .dict [("event_id".data, .int 5), ("distance".data, .str "10K".data)]])]

/-- A race whose first event processes fully (its name short-circuits the
kids check) and whose second event is no dict, so the second loop iteration
raises after one record was already appended (counterexample input). -/
def partialRace : PyVal :=
  .dict [("race_id".data, .int 1),
         ("events".data, .list
           [.dict [("event_id".data, .int 2), ("distance".data, .str "5K".data),
                   ("name".data, .str "Kids Dash".data)],
            .int 7])]

/-- A race with an empty events list (witness input). -/
def emptyEventsRace : PyVal :=
  .dict [("race_id".data, .int 9), ("name".data, .str "Lonely Run".data),
         ("events".data, .list [])]

/-- A race with two well-formed events with distinct ids, one of them a kids
event (witness input). -/
def twoEventsRace : PyVal :=
  .dict [("race_id".data, .int 4),
         ("events".data, .list
           [.dict [("event_id".data, .int 1), ("distance".data, .str "5K".data),
                   ("name".data, .str "Open 5K".data)],
            .dict [("event_id".data, .int 2), ("distance".data, .str "1 Mile".data),
                   ("name".data, .str "Family Mile".data)]])]

/-- An output record with a given date value (witness input). -/
def sampleRec (d : PyVal) : OutputRace :=
  ⟨"9".data, .str "Lonely Run".data, d, .str "Unknown".data, "WA".data, "Unknown".data,
   "Moderate".data, .str [], .str fallbackImageUrl, .dec 0 0, .dec 0 0, false, .str []⟩

/-- The fields `extractRaceFields` yields on `emptyEventsRace`. -/
def emptyEventsFields : RaceFields :=
  ⟨.int 9, .str "Lonely Run".data, .str [], .str "Unknown".data, .str [], .str [],
   .list [], .dec 0 0, .dec 0 0⟩

/-- First event of `twoEventsRace`. -/
def twoEv1 : PyVal :=
  .dict [("event_id".data, .int 1), ("distance".data, .str "5K".data),
         ("name".data, .str "Open 5K".data)]

/-- Second event of `twoEventsRace` (a family event). -/
def twoEv2 : PyVal :=
  .dict [("event_id".data, .int 2), ("distance".data, .str "1 Mile".data),
         ("name".data, .str "Family Mile".data)]

/-- The fields `extractRaceFields` yields on `twoEventsRace`. -/
def twoEventsFields : RaceFields :=
  ⟨.int 4, .str "Unknown Race".data, .str [], .str "Unknown".data, .str [], .str [],
   .list [twoEv1, twoEv2], .dec 0 0, .dec 0 0⟩

/-- First event of `partialRace`. -/
def partialEv1 : PyVal :=
  .dict [("event_id".data, .int 2), ("distance".data, .str "5K".data),
         ("name".data, .str "Kids Dash".data)]

/-- The fields `extractRaceFields` yields on `partialRace`. -/
def partialFields : RaceFields :=
  ⟨.int 1, .str "Unknown Race".data, .str [], .str "Unknown".data, .str [], .str [],
   .list [partialEv1, .int 7], .dec 0 0, .dec 0 0⟩

/-- A race whose events value is no iterable at all (witness input). -/
def badEventsRace : PyVal :=
  .dict [("race_id".data, .int 3), ("events".data, .int 5)]

/-- The fields `extractRaceFields` yields on `badEventsRace`. -/
def badEventsFields : RaceFields :=
  ⟨.int 3, .str "Unknown Race".data, .str [], .str "Unknown".data, .str [], .str [],
   .int 5, .dec 0 0, .dec 0 0⟩

/-! ### Helper lemmas -/

/-- `Char.ofNat` round-trips through `toNat` on the basic plane below the
surrogates. -/
theorem char_toNat_ofNat_valid (n : Nat) (h : n < 55296) : (Char.ofNat n).toNat = n := by
  have hv : Nat.isValidChar n := Or.inl h
  simp only [Char.ofNat, dif_pos hv]
  simp [Char.ofNatAux, Char.toNat, UInt32.toNat, UInt32.ofNatCore]

/-- Lowering an already lowered character changes nothing. -/
theorem lowerChar_idem (c : Char) : lowerChar (lowerChar c) = lowerChar c := by
  unfold lowerChar
  split
  · rename_i h
    have hZle : c.toNat ≤ 90 := h.2
    have h2 : (Char.ofNat (c.toNat + 32)).toNat = c.toNat + 32 :=
      char_toNat_ofNat_valid _ (by omega)
    rw [if_neg]
    intro hc
    have hA : (65 : Nat) ≤ (Char.ofNat (c.toNat + 32)).toNat := hc.1
    have hZ : (Char.ofNat (c.toNat + 32)).toNat ≤ 90 := hc.2
    rw [h2] at hA hZ
    have hAge : (65 : Nat) ≤ c.toNat := h.1
    omega
  · rfl

/-- Lowering is idempotent on strings. -/
theorem pyLower_idem (s : Str) : pyLower (pyLower s) = pyLower s := by
  induction s with
  | nil => rfl
  | cons c rest ih =>
      simp only [pyLower, List.map_cons] at ih ⊢
      rw [lowerChar_idem]
      exact congrArg _ ih

/-- C4: `determine_difficulty` is a pure, deterministic, case-insensitive
function of the distance string (lowering the input first changes nothing),
it equals first-match-wins evaluation of the spec's ordered rule table with
default "Moderate", and the label "Kids 1K / 5K Fun Run" classifies as
Beginner. -/
theorem determine_difficulty_spec :
    (∀ s : Str, determine_difficulty (pyLower s) = determine_difficulty s) ∧
    (∀ s : Str, determine_difficulty s = firstMatchDifficulty (pyLower s) difficultyRules) ∧
    determine_difficulty "Kids 1K / 5K Fun Run".data = "Beginner".data := by
  refine ⟨?_, ?_, by decide⟩
  · intro s
    simp only [determine_difficulty, pyLower_idem]
  · intro s
    rfl

/-- Appending the head record to a successful tail filtering preserves the
subsequence property. -/
theorem filterKeepSublistAux (today : PyDate) (r : OutputRace) (rest out : List OutputRace)
    (ih : ∀ out2, filter_future_races today rest = .ok out2 → out2.Sublist rest)
    (h : Except.map (fun tail => r :: tail) (filter_future_races today rest) = .ok out) :
    out.Sublist (r :: rest) := by
  cases htail : filter_future_races today rest with
  | ok tail =>
      rw [htail] at h
      simp only [Except.map, Except.ok.injEq] at h
      subst h
      exact (ih tail htail).cons₂ r
  | error e => rw [htail] at h; simp [Except.map] at h

/-- C3: over record lists whose date fields are strings (the OutputRace data
model), the filter succeeds and retains exactly the records whose date string
is empty, fails to parse as month/day/year, or parses to today or later —
with `today` a single value for the whole call. -/
theorem filter_future_races_spec (today : PyDate) (rs : List OutputRace)
    (h : ∀ r ∈ rs, ∃ s, r.date = PyVal.str s) :
    filter_future_races today rs = .ok (rs.filter (fun r => specKeep today (dateStrOf r))) := by
  induction rs with
  | nil => rfl
  | cons r rest ih =>
      obtain ⟨s, hs⟩ := h r (by simp)
      have ih2 := ih (fun x hx => h x (by simp [hx]))
      simp only [filter_future_races, ih2, hs, List.filter_cons, dateStrOf, pyTruthy,
        strptimeDyn, specKeep]
      by_cases hse : s.isEmpty
      · simp [hse, Except.map]
      · simp only [hse, Bool.not_false, if_true, Bool.false_or]
        cases hp : parseMMDDYYYY s with
        | none => simp [Except.map]
        | some d =>
            by_cases hge : dateGe d today
            · simp [hge, Except.map]
            · simp [hge]

/-- C10: whatever record list the filter is given, when it returns at all it
returns a subsequence of its input: every kept record is one of the input
records, unmodified, in input order, without duplication — so the output is
never longer than the input. -/
theorem filter_future_races_sublist (today : PyDate) (rs out : List OutputRace)
    (h : filter_future_races today rs = .ok out) : out.Sublist rs := by
  induction rs generalizing out with
  | nil =>
      simp only [filter_future_races, Except.ok.injEq] at h
      subst h
      exact List.Sublist.refl _
  | cons r rest ih =>
      simp only [filter_future_races] at h
      split at h
      · split at h
        · split at h
          · exact filterKeepSublistAux today r rest out ih h
          · exact (ih out h).cons r
        · exact filterKeepSublistAux today r rest out ih h
        · simp at h
      · exact filterKeepSublistAux today r rest out ih h

/-- A string-valued `PyVal` equals the string it carries, any default. -/
theorem strVal_cases (v : PyVal) (d : Str) (h : isStrVal v = true) : v = .str (strValOr v d) := by
  cases v <;> first | rfl | simp [isStrVal] at h

/-- Well-formed events are dictionaries. -/
theorem wfEvent_dict (ev : PyVal) (h : wfEvent ev = true) : ∃ fs, ev = .dict fs := by
  cases ev <;> try simp [wfEvent] at h
  exact ⟨_, rfl⟩

/-- The distance lookup of a well-formed event yields its distance string. -/
theorem wf_distance (fs : List (Str × PyVal)) (h : wfEvent (.dict fs) = true) :
    (dictGet fs "distance".data).getD (.str "Unknown".data)
      = .str (eventDistanceStr (.dict fs)) := by
  simp only [wfEvent, Bool.and_eq_true] at h
  exact strVal_cases _ _ h.1

/-- The defaulted name of a well-formed event is its name string. -/
theorem wf_name (fs : List (Str × PyVal)) (h : wfEvent (.dict fs) = true) :
    pyOr ((dictGet fs "name".data).getD (.str [])) (.str [])
      = .str (eventNameStr (.dict fs)) := by
  simp only [wfEvent, Bool.and_eq_true] at h
  exact strVal_cases _ _ h.2

/-- Over well-formed events the kids scan never raises and computes the
spec-side flag. -/
theorem has_kids_race_wf (evs : List PyVal) (h : ∀ ev ∈ evs, wfEvent ev = true) :
    has_kids_race evs = .ok (specHasKids evs) := by
  induction evs with
  | nil => rfl
  | cons ev rest ih =>
      have hev := h ev (by simp)
      obtain ⟨fs, rfl⟩ := wfEvent_dict ev hev
      have hn := wf_name fs hev
      have ih2 := ih (fun x hx => h x (by simp [hx]))
      simp only [has_kids_race, pyGet, hn, pyLowerE, ih2]
      cases hk : kidKeywords.any (fun k => containsSub k (pyLower (eventNameStr (.dict fs)))) with
      | true => simp [specHasKids, hk]
      | false => simp [specHasKids, hk]

/-- Over a well-formed event the loop body never raises and builds exactly
the event's record (with `b` the race's kids flag). -/
theorem processEvent_wf (f : RaceFields) (st : Str) (img : PyVal) (allEvents : List PyVal)
    (b : Bool) (hkids : has_kids_race allEvents = .ok b)
    (ev : PyVal) (h : wfEvent ev = true) :
    processEvent f st img allEvents ev = .ok (eventRecord f st img b ev) := by
  obtain ⟨fs, rfl⟩ := wfEvent_dict ev h
  have hd := wf_distance fs h
  simp only [processEvent, pyGet, hd, hkids, eventRecord, eventIdOf]

/-- The event loop over well-formed events appends one record per event and
reports no exception. -/
theorem processEvents_wf (f : RaceFields) (st : Str) (img : PyVal) (allEvents : List PyVal)
    (b : Bool) (hkids : has_kids_race allEvents = .ok b) :
    ∀ (evs : List PyVal), (∀ ev ∈ evs, wfEvent ev = true) → ∀ (acc : List OutputRace),
      processEvents f st img allEvents evs acc
        = (acc.reverse ++ evs.map (eventRecord f st img b), Option.none) := by
  intro evs
  induction evs with
  | nil => intro _ acc; simp [processEvents]
  | cons ev rest ih =>
      intro h acc
      have hpe := processEvent_wf f st img allEvents b hkids ev (h ev (by simp))
      simp only [processEvents, hpe, List.map_cons]
      rw [ih (fun x hx => h x (by simp [hx])) (eventRecord f st img b ev :: acc)]
      simp

/-- A value that iterates to `evs` is truthy exactly when `evs` is nonempty. -/
theorem iterElems_truthy (v : PyVal) (evs : List PyVal) (h : iterElems v = .ok evs) :
    pyTruthy v = !evs.isEmpty := by
  cases v with
  | list xs =>
      simp only [iterElems, Except.ok.injEq] at h
      subst h; rfl
  | str s =>
      simp only [iterElems, Except.ok.injEq] at h
      subst h
      cases s <;> simp [pyTruthy]
  | dict fs =>
      simp only [iterElems, Except.ok.injEq] at h
      subst h
      cases fs <;> simp [pyTruthy]
  | none => simp [iterElems] at h
  | bool b => simp [iterElems] at h
  | int n => simp [iterElems] at h
  | dec m e => simp [iterElems] at h

/-- The transformation of a race whose fields extract cleanly and whose
events are all well-formed: one record per event, or the single default
record when there are no events — and no exception. -/
theorem transformRun_wf (gi : PyVal → Str → PyVal) (race : PyVal) (st : Str)
    (f : RaceFields) (evs : List PyVal)
    (hf : extractRaceFields race = .ok f) (he : iterElems f.events = .ok evs)
    (hwf : ∀ ev ∈ evs, wfEvent ev = true) :
    transformRun gi race st =
      ((if evs.isEmpty then [defaultRecord f st (gi f.city st)]
        else evs.map (eventRecord f st (gi f.city st) (specHasKids evs))), Option.none) := by
  have hkids := has_kids_race_wf evs hwf
  have hpe := processEvents_wf f st (gi f.city st) evs (specHasKids evs) hkids evs hwf []
  have ht := iterElems_truthy f.events evs he
  simp only [transformRun, hf, he, hpe, List.reverse_nil, List.nil_append, ht]
  cases hevs : evs.isEmpty with
  | true =>
      have : evs = [] := List.isEmpty_iff.mp hevs
      subst this
      simp
  | false => simp

/-- C5: a race whose fields extract cleanly and whose events list is empty
transforms to exactly one record: the default record, whose id is the bare
race id (`str(race_id)`), whose distance is "Unknown" and whose difficulty is
"Moderate". -/
theorem transform_zero_events (gi : PyVal → Str → PyVal) (race : PyVal) (st : Str)
    (f : RaceFields) (hf : extractRaceFields race = .ok f)
    (hev : f.events = PyVal.list []) :
    transform_race_data gi race st = [defaultRecord f st (gi f.city st)] ∧
    (defaultRecord f st (gi f.city st)).id = pyStr f.race_id ∧
    (defaultRecord f st (gi f.city st)).distance = "Unknown".data ∧
    (defaultRecord f st (gi f.city st)).difficulty = "Moderate".data := by
  have he : iterElems f.events = .ok [] := by rw [hev]; rfl
  have hrun := transformRun_wf gi race st f [] hf he (by intro ev hmem; simp at hmem)
  refine ⟨?_, rfl, rfl, rfl⟩
  simp [transform_race_data, hrun]

/-- Witness for `transform_zero_events` at the concrete race
`emptyEventsRace`. -/
theorem transform_zero_events_witness :
    extractRaceFields emptyEventsRace = .ok emptyEventsFields ∧
    emptyEventsFields.events = PyVal.list [] ∧
    transform_race_data noKeyImage emptyEventsRace "WA".data
      = [defaultRecord emptyEventsFields "WA".data
          (noKeyImage emptyEventsFields.city "WA".data)] :=
  ⟨rfl, rfl, (transform_zero_events noKeyImage emptyEventsRace "WA".data
      emptyEventsFields rfl rfl).1⟩

/-- C9: a race whose fields extract cleanly and whose events list is empty
yields its single record with the kids flag false, whatever its name,
description or any other field. -/
theorem transform_zero_events_kids_false (gi : PyVal → Str → PyVal) (race : PyVal) (st : Str)
    (f : RaceFields) (hf : extractRaceFields race = .ok f)
    (hev : f.events = PyVal.list []) :
    ∀ r ∈ transform_race_data gi race st, r.hasKidsRace = false := by
  have he : iterElems f.events = .ok [] := by rw [hev]; rfl
  have hrun := transformRun_wf gi race st f [] hf he (by intro ev hmem; simp at hmem)
  intro r hr
  simp only [transform_race_data, hrun, List.isEmpty_nil, if_true, List.mem_singleton] at hr
  subst hr
  rfl

/-- Witness for `transform_zero_events_kids_false` at `emptyEventsRace`. -/
theorem transform_zero_events_kids_false_witness :
    (defaultRecord emptyEventsFields "WA".data
        (noKeyImage emptyEventsFields.city "WA".data)).hasKidsRace = false :=
  transform_zero_events_kids_false noKeyImage emptyEventsRace "WA".data
    emptyEventsFields rfl rfl _ (List.Mem.head _)

/-- C7: over a race whose fields extract cleanly and whose events are all
well-formed, the kids flag is computed once from the full event list — it is
true exactly when some event's lowered name contains a kid keyword — and
every record derived from the race carries that same value. -/
theorem transform_kids_flag (gi : PyVal → Str → PyVal) (race : PyVal) (st : Str)
    (f : RaceFields) (evs : List PyVal)
    (hf : extractRaceFields race = .ok f) (he : iterElems f.events = .ok evs)
    (hwf : ∀ ev ∈ evs, wfEvent ev = true) :
    has_kids_race evs = .ok (specHasKids evs) ∧
    (specHasKids evs = true ↔
      ∃ ev ∈ evs, kidKeywords.any (fun k => containsSub k (pyLower (eventNameStr ev))) = true) ∧
    ∀ r ∈ transform_race_data gi race st, r.hasKidsRace = specHasKids evs := by
  have hrun := transformRun_wf gi race st f evs hf he hwf
  refine ⟨has_kids_race_wf evs hwf, by simp [specHasKids, List.any_eq_true], ?_⟩
  intro r hr
  simp only [transform_race_data, hrun] at hr
  by_cases hevs : evs.isEmpty
  · rw [if_pos hevs] at hr
    rw [List.mem_singleton] at hr
    subst hr
    have : evs = [] := List.isEmpty_iff.mp hevs
    subst this
    rfl
  · rw [if_neg hevs, List.mem_map] at hr
    obtain ⟨ev, _, heq⟩ := hr
    subst heq
    rfl

/-- Witness for `transform_kids_flag` at the concrete race `twoEventsRace`
(whose second event is named "Family Mile"). -/
theorem transform_kids_flag_witness :
    (eventRecord twoEventsFields "WA".data (noKeyImage (PyVal.str "Unknown".data) "WA".data)
        (specHasKids [twoEv1, twoEv2]) twoEv1).hasKidsRace = specHasKids [twoEv1, twoEv2] :=
  (transform_kids_flag noKeyImage twoEventsRace "WA".data twoEventsFields [twoEv1, twoEv2]
      rfl rfl (by decide)).2.2 _ (List.Mem.head _)

/-- C1 (amended): a race whose fields extract cleanly and whose events list
holds N > 0 well-formed events transforms to exactly N records, whose ids are
the composites "{race_id}_{event_id}" in event order; the ids are pairwise
distinct whenever the rendered event ids are pairwise distinct — which the
code does not enforce (see the counterexample `transform_ids_clash`). -/
theorem transform_event_count_ids (gi : PyVal → Str → PyVal) (race : PyVal) (st : Str)
    (f : RaceFields) (evs : List PyVal) (n : Nat)
    (hf : extractRaceFields race = .ok f) (hev : f.events = PyVal.list evs)
    (hwf : ∀ ev ∈ evs, wfEvent ev = true) (hn : evs.length = n) (hpos : 0 < n) :
    (transform_race_data gi race st).length = n ∧
    (transform_race_data gi race st).map OutputRace.id
      = evs.map (fun ev => pyStr f.race_id ++ '_' :: pyStr (eventIdOf ev)) ∧
    ((evs.map (fun ev => pyStr (eventIdOf ev))).Pairwise (fun a b => a ≠ b) →
      ((transform_race_data gi race st).map OutputRace.id).Pairwise (fun a b => a ≠ b)) := by
  have he : iterElems f.events = .ok evs := by rw [hev]; rfl
  have hrun := transformRun_wf gi race st f evs hf he hwf
  have hne : evs.isEmpty = false := by
    cases evs with
    | nil => rw [List.length_nil] at hn; omega
    | cons a l => rfl
  have htr : transform_race_data gi race st
      = evs.map (eventRecord f st (gi f.city st) (specHasKids evs)) := by
    simp [transform_race_data, hrun, hne]
  have hids : (transform_race_data gi race st).map OutputRace.id
      = evs.map (fun ev => pyStr f.race_id ++ '_' :: pyStr (eventIdOf ev)) := by
    rw [htr, List.map_map]
    rfl
  refine ⟨?_, hids, ?_⟩
  · rw [htr, List.length_map, hn]
  · intro hdist
    rw [hids, List.pairwise_map]
    rw [List.pairwise_map] at hdist
    refine hdist.imp ?_
    intro a b hab heq
    apply hab
    have h3 := List.append_cancel_left heq
    simpa using h3

/-- Witness for `transform_event_count_ids` at `twoEventsRace`, whose event
ids 1 and 2 are distinct. -/
theorem transform_event_count_ids_witness :
    (transform_race_data noKeyImage twoEventsRace "WA".data).length = 2 ∧
    ((transform_race_data noKeyImage twoEventsRace "WA".data).map OutputRace.id).Pairwise
      (fun a b => a ≠ b) := by
  have h := transform_event_count_ids noKeyImage twoEventsRace "WA".data twoEventsFields
    [twoEv1, twoEv2] 2 rfl rfl (by decide) rfl (by decide)
  exact ⟨h.1, h.2.2 (by decide)⟩

/-- C1 counterexample: `dupIdRace` has exactly two events (both well-formed),
yet the two records' composite ids coincide — "1_5" twice — so the ids of the
N records are not pairwise distinct. -/
theorem transform_ids_clash :
    (transform_race_data noKeyImage dupIdRace "WA".data).length = 2 ∧
    (transform_race_data noKeyImage dupIdRace "WA".data).map OutputRace.id
      = ["1_5".data, "1_5".data] ∧
    ¬ ((transform_race_data noKeyImage dupIdRace "WA".data).map OutputRace.id).Pairwise
        (fun a b => a ≠ b) := by
  refine ⟨rfl, rfl, by decide⟩

/-- The event loop never returns more records than it was handed events plus
what the accumulator already held. -/
theorem processEvents_length (f : RaceFields) (st : Str) (img : PyVal)
    (allEvents : List PyVal) :
    ∀ (evs : List PyVal) (acc : List OutputRace),
      (processEvents f st img allEvents evs acc).1.length ≤ acc.length + evs.length := by
  intro evs
  induction evs with
  | nil => intro acc; simp [processEvents]
  | cons ev rest ih =>
      intro acc
      simp only [processEvents]
      cases processEvent f st img allEvents ev with
      | ok r =>
          have h := ih (r :: acc)
          simp only [List.length_cons] at h ⊢
          omega
      | error e =>
          simp only [List.length_reverse, List.length_cons]
          omega

/-- C2 counterexample: on `partialRace` the transformation raises during the
second loop iteration (that event is no dictionary), yet the function does
not return an empty list — it returns the one record appended before the
exception. -/
theorem transform_error_keeps_partial :
    (transformRun noKeyImage partialRace "WA".data).2 = some .attributeError ∧
    (transform_race_data noKeyImage partialRace "WA".data).length = 1 :=
  ⟨rfl, rfl⟩

/-- C2 (amended): an exception during transformation is caught, never
propagated, and the race contributes exactly the records completed before the
exception — zero records whenever the exception precedes the event loop
(raised during field extraction, or because the events value is not
iterable), and never more than one record per event. -/
theorem transform_error_containment :
    (∀ (gi : PyVal → Str → PyVal) (race : PyVal) (st : Str) (e : PyErr),
      extractRaceFields race = .error e → transform_race_data gi race st = []) ∧
    (∀ (gi : PyVal → Str → PyVal) (race : PyVal) (st : Str) (f : RaceFields) (e : PyErr),
      extractRaceFields race = .ok f → iterElems f.events = .error e →
      transform_race_data gi race st = []) ∧
    (∀ (gi : PyVal → Str → PyVal) (race : PyVal) (st : Str) (f : RaceFields)
        (evs : List PyVal),
      extractRaceFields race = .ok f → iterElems f.events = .ok evs → evs ≠ [] →
      (transform_race_data gi race st).length ≤ evs.length) := by
  refine ⟨?_, ?_, ?_⟩
  · intro gi race st e hf
    simp [transform_race_data, transformRun, hf]
  · intro gi race st f e hf he
    simp [transform_race_data, transformRun, hf, he]
  · intro gi race st f evs hf he hne
    have hlen := processEvents_length f st (gi f.city st) evs evs []
    simp only [List.length_nil, Nat.zero_add] at hlen
    have htruthy : pyTruthy f.events = true := by
      rw [iterElems_truthy f.events evs he]
      cases evs with
      | nil => exact absurd rfl hne
      | cons a l => rfl
    simp only [transform_race_data, transformRun, hf, he]
    rcases hpro : processEvents f st (gi f.city st) evs evs [] with ⟨recs, err⟩
    rw [hpro] at hlen
    cases err with
    | some e => exact hlen
    | none => rw [htruthy]; simp only [if_true]; exact hlen

/-- Witness for `transform_error_containment`, exercising all three parts:
a non-dict race, a race with a non-iterable events value, and `partialRace`
with its two events. -/
theorem transform_error_containment_witness :
    transform_race_data noKeyImage (.int 3) "WA".data = [] ∧
    transform_race_data noKeyImage badEventsRace "WA".data = [] ∧
    (transform_race_data noKeyImage partialRace "WA".data).length ≤ 2 :=
  ⟨transform_error_containment.1 noKeyImage (.int 3) "WA".data .attributeError rfl,
   transform_error_containment.2.1 noKeyImage badEventsRace "WA".data badEventsFields
     .typeError rfl rfl,
   transform_error_containment.2.2 noKeyImage partialRace "WA".data partialFields
     [partialEv1, .int 7] rfl rfl (List.cons_ne_nil _ _)⟩

/-- C6: with no photo-service credential `get_city_image` returns the fixed
fallback URL for every city, region and oracle; with a credential, it still
falls back whenever the network call raises, whenever the response's result
set is empty, and whenever the lookup body raises (malformed response) or
falls through without a result for any other reason. -/
theorem get_city_image_fallback :
    (∀ (oracle : Str → Except PyErr PyVal) (city : PyVal) (st : Str),
      get_city_image Option.none oracle city st = .str fallbackImageUrl) ∧
    (∀ (k : Str) (oracle : Str → Except PyErr PyVal) (city : PyVal) (st : Str) (e : PyErr),
      (∀ q, oracle q = .error e) →
      get_city_image (some k) oracle city st = .str fallbackImageUrl) ∧
    (∀ (k : Str) (oracle : Str → Except PyErr PyVal) (city : PyVal) (st : Str) (data : PyVal),
      (∀ q, oracle q = .ok data) → pyGet1 data "results".data = .ok (.list []) →
      get_city_image (some k) oracle city st = .str fallbackImageUrl) ∧
    (∀ (k : Str) (oracle : Str → Except PyErr PyVal) (city : PyVal) (st : Str) (e : PyErr),
      imageLookup oracle city st = .error e →
      get_city_image (some k) oracle city st = .str fallbackImageUrl) ∧
    (∀ (k : Str) (oracle : Str → Except PyErr PyVal) (city : PyVal) (st : Str),
      imageLookup oracle city st = .ok Option.none →
      get_city_image (some k) oracle city st = .str fallbackImageUrl) := by
  refine ⟨fun _ _ _ => rfl, ?_, ?_, ?_, ?_⟩
  · intro k oracle city st e h
    simp only [get_city_image, imageLookup, h]
    cases state_names st <;> rfl
  · intro k oracle city st data h hres
    simp only [get_city_image, imageLookup, h, hres]
    cases state_names st <;> rfl
  · intro k oracle city st e h
    simp only [get_city_image, h]
  · intro k oracle city st h
    simp only [get_city_image, h]

/-- Witness for `get_city_image_fallback`: no credential, a failing network
call, an empty result set, a malformed response (results truthy but not
subscriptable), and a response without a results key. -/
theorem get_city_image_fallback_witness :
    get_city_image Option.none (fun _ => .error .requestError)
        (.str "Seattle".data) "WA".data = .str fallbackImageUrl ∧
    get_city_image (some "K".data) (fun _ => .error .requestError)
        (.str "Seattle".data) "WA".data = .str fallbackImageUrl ∧
    get_city_image (some "K".data) (fun _ => .ok (.dict [("results".data, .list [])]))
        (.str "Seattle".data) "WA".data = .str fallbackImageUrl ∧
    get_city_image (some "K".data) (fun _ => .ok (.dict [("results".data, .int 1)]))
        (.str "Seattle".data) "WA".data = .str fallbackImageUrl ∧
    get_city_image (some "K".data) (fun _ => .ok (.dict []))
        (.str "Seattle".data) "WA".data = .str fallbackImageUrl :=
  ⟨get_city_image_fallback.1 _ _ _,
   get_city_image_fallback.2.1 "K".data _ (.str "Seattle".data) "WA".data .requestError
     (fun _ => rfl),
   get_city_image_fallback.2.2.1 "K".data _ (.str "Seattle".data) "WA".data
     (.dict [("results".data, .list [])]) (fun _ => rfl) rfl,
   get_city_image_fallback.2.2.2.1 "K".data _ (.str "Seattle".data) "WA".data .typeError rfl,
   get_city_image_fallback.2.2.2.2 "K".data _ (.str "Seattle".data) "WA".data rfl⟩

/-- Witness for `filter_future_races_spec` at a four-record list: a past
date, an empty date, an unparseable date and a future date, of which only the
past-dated record is removed. -/
theorem filter_future_races_spec_witness :
    filter_future_races ⟨2026, 10, 12⟩
        [sampleRec (.str "01/01/2000".data), sampleRec (.str []),
         sampleRec (.str "not-a-date".data), sampleRec (.str "01/01/2036".data)]
      = .ok [sampleRec (.str []), sampleRec (.str "not-a-date".data),
             sampleRec (.str "01/01/2036".data)] := by
  have h := filter_future_races_spec ⟨2026, 10, 12⟩
    [sampleRec (.str "01/01/2000".data), sampleRec (.str []),
     sampleRec (.str "not-a-date".data), sampleRec (.str "01/01/2036".data)]
    (by
      intro r hr
      simp only [List.mem_cons, List.mem_singleton] at hr
      rcases hr with h1 | h1 | h1 | h1 | h1 <;> first | (subst h1; exact ⟨_, rfl⟩) | cases h1)
  rw [h]
  rfl

/-- Witness for `filter_future_races_sublist` at a two-record list whose
past-dated head is dropped. -/
theorem filter_future_races_sublist_witness :
    List.Sublist [sampleRec (.str [])]
      [sampleRec (.str "01/01/2000".data), sampleRec (.str [])] :=
  filter_future_races_sublist ⟨2026, 10, 12⟩
    [sampleRec (.str "01/01/2000".data), sampleRec (.str [])] [sampleRec (.str [])] rfl

/-! ### Round-trip of the written JSON document -/

/-- Distinct codes give distinct characters. -/
theorem char_ne_of_toNat_ne (c d : Char) (h : c.toNat ≠ d.toNat) : c ≠ d :=
  fun he => h (by rw [he])

/-- The code of a digit character: 48 plus the digit. -/
theorem digitChar_toNat (k : Nat) : (digitChar k).toNat = 48 + k % 10 := by
  have hm : k % 10 < 10 := Nat.mod_lt _ (by omega)
  have h48 : ('0').toNat = 48 := rfl
  have h := char_toNat_ofNat_valid ('0'.toNat + k % 10) (by omega)
  rw [digitChar, h, h48]

/-- Digit characters are digits. -/
theorem isDig_digitChar (k : Nat) : isDig (digitChar k) = true := by
  have h := digitChar_toNat k
  have hm : k % 10 < 10 := Nat.mod_lt _ (by omega)
  simp only [isDig, Bool.and_eq_true, decide_eq_true_eq]
  constructor
  · show (48 : Nat) ≤ (digitChar k).toNat
    omega
  · show (digitChar k).toNat ≤ 57
    omega

/-- A digit character is not one of the syntax characters the parsers branch
on. -/
theorem isDig_not_special (c : Char) (h : isDig c = true) :
    isSpace c = false ∧ c ≠ ']' ∧ c ≠ '\x7d' ∧ c ≠ '-' ∧ c ≠ '.' ∧ c ≠ 'n' ∧ c ≠ 't' ∧
      c ≠ 'f' ∧ c ≠ '"' ∧ c ≠ '[' ∧ c ≠ '\x7b' := by
  simp only [isDig, Bool.and_eq_true, decide_eq_true_eq] at h
  have h0 : (48 : Nat) ≤ c.toNat := h.1
  have h9 : c.toNat ≤ 57 := h.2
  refine ⟨?_, ?_, ?_, ?_, ?_, ?_, ?_, ?_, ?_, ?_, ?_⟩
  · simp only [isSpace, Bool.or_eq_false_iff, decide_eq_false_iff_not]
    refine ⟨⟨⟨?_, ?_⟩, ?_⟩, ?_⟩
    · exact char_ne_of_toNat_ne _ _ (by rw [show (' ' : Char).toNat = 32 by decide]; omega)
    · exact char_ne_of_toNat_ne _ _ (by rw [show ('\n' : Char).toNat = 10 by decide]; omega)
    · exact char_ne_of_toNat_ne _ _ (by rw [show ('\t' : Char).toNat = 9 by decide]; omega)
    · exact char_ne_of_toNat_ne _ _ (by rw [show ('\r' : Char).toNat = 13 by decide]; omega)
  · exact char_ne_of_toNat_ne _ _ (by rw [show (']' : Char).toNat = 93 by decide]; omega)
  · exact char_ne_of_toNat_ne _ _ (by rw [show ('\x7d' : Char).toNat = 125 by decide]; omega)
  · exact char_ne_of_toNat_ne _ _ (by rw [show ('-' : Char).toNat = 45 by decide]; omega)
  · exact char_ne_of_toNat_ne _ _ (by rw [show ('.' : Char).toNat = 46 by decide]; omega)
  · exact char_ne_of_toNat_ne _ _ (by rw [show ('n' : Char).toNat = 110 by decide]; omega)
  · exact char_ne_of_toNat_ne _ _ (by rw [show ('t' : Char).toNat = 116 by decide]; omega)
  · exact char_ne_of_toNat_ne _ _ (by rw [show ('f' : Char).toNat = 102 by decide]; omega)
  · exact char_ne_of_toNat_ne _ _ (by rw [show ('"' : Char).toNat = 34 by decide]; omega)
  · exact char_ne_of_toNat_ne _ _ (by rw [show ('[' : Char).toNat = 91 by decide]; omega)
  · exact char_ne_of_toNat_ne _ _ (by rw [show ('\x7b' : Char).toNat = 123 by decide]; omega)

/-- The accumulator rides along on the right of `natDecAux`. -/
theorem natDecAux_acc (fuel : Nat) : ∀ (n : Nat) (acc : Str),
    natDecAux fuel n acc = natDecAux fuel n [] ++ acc := by
  induction fuel with
  | zero => intro n acc; rfl
  | succ f ih =>
      intro n acc
      simp only [natDecAux]
      by_cases h : n < 10
      · simp [h]
      · simp only [if_neg h]
        rw [ih (n / 10) (digitChar (n % 10) :: acc), ih (n / 10) [digitChar (n % 10)]]
        simp

/-- Below 10 any fuel renders the single digit. -/
theorem natDecAux_small (n : Nat) (h : n < 10) : ∀ fuel, natDecAux fuel n [] = [digitChar n]
  | 0 => rfl
  | fuel + 1 => by simp [natDecAux, h]

/-- Any two sufficient fuels render the same digits. -/
theorem natDecAux_fuel (f1 : Nat) : ∀ (f2 n : Nat), n < 10 ^ (f1 + 1) → n < 10 ^ (f2 + 1) →
    natDecAux f1 n [] = natDecAux f2 n [] := by
  induction f1 with
  | zero =>
      intro f2 n h1 _
      have h10 : n < 10 := by simpa using h1
      rw [natDecAux_small n h10 0, natDecAux_small n h10 f2]
  | succ f ih =>
      intro f2 n h1 h2
      by_cases h : n < 10
      · rw [natDecAux_small n h _, natDecAux_small n h _]
      · cases f2 with
        | zero => exact absurd (by simpa using h2) h
        | succ f2' =>
            simp only [natDecAux, if_neg h]
            rw [natDecAux_acc f (n / 10), natDecAux_acc f2' (n / 10)]
            have hdiv : ∀ k, n < 10 ^ (k + 2) → n / 10 < 10 ^ (k + 1) := by
              intro k hk
              rw [Nat.div_lt_iff_lt_mul (by omega)]
              calc n < 10 ^ (k + 2) := hk
                _ = 10 ^ (k + 1) * 10 := by rw [Nat.pow_succ]
            rw [ih f2' (n / 10) (hdiv f h1) (hdiv f2' h2)]

/-- Every number sits below the power its own size provides as fuel. -/
theorem lt_pow10_succ (n : Nat) : n < 10 ^ (n + 1) :=
  lt_of_lt_of_le (Nat.lt_pow_self (by omega) n)
    (Nat.pow_le_pow_right (by omega) (by omega))

/-- One-step unfolding of `natDec`, last digit first. -/
theorem natDec_unfold (n : Nat) :
    natDec n = (if n < 10 then [] else natDec (n / 10)) ++ [digitChar (n % 10)] := by
  by_cases h : n < 10
  · rw [if_pos h, natDec, natDecAux_small n h, Nat.mod_eq_of_lt h]
    simp
  · rw [if_neg h]
    obtain ⟨m, rfl⟩ : ∃ m, n = m + 1 := ⟨n - 1, by omega⟩
    show natDecAux (m + 1) (m + 1) [] = _
    simp only [natDecAux, if_neg h]
    rw [natDecAux_acc m ((m + 1) / 10)]
    have hd1 : (m + 1) / 10 < 10 ^ (m + 1) :=
      lt_trans (Nat.div_lt_self (by omega) (by omega)) (Nat.lt_pow_self (by omega) (m + 1))
    rw [show natDec ((m + 1) / 10) = natDecAux ((m + 1) / 10) ((m + 1) / 10) [] from rfl]
    rw [natDecAux_fuel m ((m + 1) / 10) ((m + 1) / 10) hd1 (lt_pow10_succ _)]

/-- A rendered number is never empty. -/
theorem natDec_ne_nil (n : Nat) : natDec n ≠ [] := by
  rw [natDec_unfold]
  simp

/-- A rendered number is all digits. -/
theorem natDec_digits (n : Nat) : ∀ c ∈ natDec n, isDig c = true := by
  induction n using Nat.strong_induction_on with
  | _ n ih =>
      rw [natDec_unfold]
      intro c hc
      rw [List.mem_append] at hc
      rcases hc with hc | hc
      · by_cases h : n < 10
        · simp [h] at hc
        · exact ih (n / 10) (Nat.div_lt_self (by omega) (by omega)) c (by simpa [h] using hc)
      · rw [List.mem_singleton] at hc
        subst hc
        exact isDig_digitChar _

/-- A rendered number starts with a digit. -/
theorem natDec_head (n : Nat) : ∃ c t, natDec n = c :: t ∧ isDig c = true := by
  cases hl : natDec n with
  | nil => exact absurd hl (natDec_ne_nil n)
  | cons c t => exact ⟨c, t, rfl, natDec_digits n c (hl ▸ List.mem_cons_self _ _)⟩

/-- Appending a digit multiplies the value by ten and adds the digit. -/
theorem digitsVal_append_digit (xs : Str) (c : Char) :
    digitsVal (xs ++ [c]) = digitsVal xs * 10 + (c.toNat - 48) := by
  simp only [digitsVal, List.foldl_append, List.foldl_cons, List.foldl_nil]
  rfl

/-- The digit run of `n` evaluates back to `n`. -/
theorem digitsVal_natDec (n : Nat) : digitsVal (natDec n) = n := by
  induction n using Nat.strong_induction_on with
  | _ n ih =>
      rw [natDec_unfold, digitsVal_append_digit]
      by_cases h : n < 10
      · simp only [if_pos h]
        rw [digitChar_toNat]
        simp only [digitsVal, List.foldl_nil]
        omega
      · simp only [if_neg h]
        rw [ih (n / 10) (Nat.div_lt_self (by omega) (by omega)), digitChar_toNat]
        omega

/-- Padded digit runs have exactly the requested width. -/
theorem natDecPad_length (w : Nat) : ∀ n, (natDecPad n w).length = w := by
  induction w with
  | zero => intro n; rfl
  | succ w ih =>
      intro n
      simp only [natDecPad, List.length_append, List.length_cons, List.length_nil, ih]

/-- Padded digit runs are all digits. -/
theorem natDecPad_digits (w : Nat) : ∀ n, ∀ c ∈ natDecPad n w, isDig c = true := by
  induction w with
  | zero => intro n c hc; simp [natDecPad] at hc
  | succ w ih =>
      intro n c hc
      simp only [natDecPad, List.mem_append, List.mem_singleton] at hc
      rcases hc with hc | hc
      · exact ih (n / 10) c hc
      · subst hc
        exact isDig_digitChar _

/-- A padded digit run evaluates to the number modulo the width's power. -/
theorem digitsVal_natDecPad (w : Nat) : ∀ n, digitsVal (natDecPad n w) = n % 10 ^ w := by
  induction w with
  | zero => intro n; simp [natDecPad, digitsVal, Nat.mod_one]
  | succ w ih =>
      intro n
      rw [natDecPad, digitsVal_append_digit, ih (n / 10), digitChar_toNat]
      have hsplit : n % 10 ^ (w + 1) = n % 10 + 10 * (n / 10 % 10 ^ w) := by
        rw [Nat.pow_succ']
        exact Nat.mod_mul
      omega

/-- `grabDigits` takes nothing from a number-safe remainder. -/
theorem grabDigits_stop (cs : Str) (h : numSafe cs = true) : grabDigits cs = ([], cs) := by
  cases cs with
  | nil => rfl
  | cons c t =>
      simp only [numSafe, Bool.not_eq_true', Bool.or_eq_false_iff] at h
      simp [grabDigits, h.1]

/-- `grabDigits` stops at a non-digit head. -/
theorem grabDigits_cons_stop (c : Char) (t : Str) (h : isDig c = false) :
    grabDigits (c :: t) = ([], c :: t) := by
  simp [grabDigits, h]

/-- `grabDigits` consumes exactly a leading digit run. -/
theorem grabDigits_run (ds : Str) (hds : ∀ c ∈ ds, isDig c = true) (rest : Str)
    (hrest : grabDigits rest = ([], rest)) : grabDigits (ds ++ rest) = (ds, rest) := by
  induction ds with
  | nil => simpa using hrest
  | cons c t ih =>
      have hc := hds c (by simp)
      have ht := ih (fun x hx => hds x (by simp [hx]))
      simp [grabDigits, hc, ht]

/-- The sign dispatch of `readNum`: a non-minus head goes to the unsigned
core. -/
theorem readNum_no_sign (c : Char) (t : Str) (h : ¬(c = '-')) :
    readNum (c :: t) = readNumCore false (c :: t) := by
  simp only [readNum]
  split
  · rename_i r heq
    injection heq with h1 _
    exact absurd h1 h
  · rfl

/-- The unsigned core reads a rendered natural as an integer whenever the
remainder cannot extend the number. -/
theorem readNumCore_int (neg : Bool) (n : Nat) (rest : Str) (h : numSafe rest = true) :
    readNumCore neg (natDec n ++ rest)
      = some (.int (if neg then -(n : Int) else (n : Int)), rest) := by
  have hrun : grabDigits (natDec n ++ rest) = (natDec n, rest) :=
    grabDigits_run _ (natDec_digits _) _ (grabDigits_stop _ h)
  simp only [readNumCore, hrun]
  rw [if_neg (by simp [natDec_ne_nil])]
  cases rest with
  | nil => simp [digitsVal_natDec]
  | cons c t =>
      have hdot : ¬(c = '.') := by
        intro hc
        simp [numSafe, hc] at h
      split
      · rename_i r heq
        injection heq with h1 _
        exact absurd h1 hdot
      · simp [digitsVal_natDec]

/-- Reading a rendered integer recovers it whenever the remainder cannot
extend the number. -/
theorem readNum_intDec (n : Int) (rest : Str) (h : numSafe rest = true) :
    readNum (intDec n ++ rest) = some (.int n, rest) := by
  by_cases hneg : n < 0
  · have harg : intDec n ++ rest = '-' :: (natDec n.natAbs ++ rest) := by
      simp [intDec, hneg]
    rw [harg]
    show readNumCore true (natDec n.natAbs ++ rest) = _
    rw [readNumCore_int true n.natAbs rest h]
    have hval : (if (true : Bool) then -(n.natAbs : Int) else (n.natAbs : Int)) = n := by
      rw [if_pos rfl]
      omega
    rw [hval]
  · obtain ⟨c0, t0, hn0, hc0⟩ := natDec_head n.natAbs
    obtain ⟨_, _, _, hminus, _, _⟩ := isDig_not_special c0 hc0
    have harg : intDec n ++ rest = c0 :: (t0 ++ rest) := by
      simp [intDec, hneg, hn0]
    rw [harg, readNum_no_sign c0 _ hminus, ← List.cons_append, ← hn0,
        readNumCore_int false n.natAbs rest h]
    have hval : (if (false : Bool) then -(n.natAbs : Int) else (n.natAbs : Int)) = n := by
      rw [if_neg (by simp)]
      omega
    rw [hval]

/-- The unsigned core reads a rendered decimal fraction back to its mantissa
and width. -/
theorem readNumCore_dec (neg : Bool) (a e : Nat) (rest : Str) (h : numSafe rest = true) :
    readNumCore neg
        (natDec (a / 10 ^ (e + 1)) ++ ('.' :: (natDecPad (a % 10 ^ (e + 1)) (e + 1) ++ rest)))
      = some (.dec (if neg then -(a : Int) else (a : Int)) e, rest) := by
  have hstop : grabDigits ('.' :: (natDecPad (a % 10 ^ (e + 1)) (e + 1) ++ rest))
      = ([], '.' :: (natDecPad (a % 10 ^ (e + 1)) (e + 1) ++ rest)) :=
    grabDigits_cons_stop _ _ (by decide)
  have hrun := grabDigits_run (natDec (a / 10 ^ (e + 1))) (natDec_digits _)
    ('.' :: (natDecPad (a % 10 ^ (e + 1)) (e + 1) ++ rest)) hstop
  have hrun2 : grabDigits (natDecPad (a % 10 ^ (e + 1)) (e + 1) ++ rest)
      = (natDecPad (a % 10 ^ (e + 1)) (e + 1), rest) :=
    grabDigits_run _ (natDecPad_digits _ _) _ (grabDigits_stop _ h)
  simp only [readNumCore, hrun]
  rw [if_neg (by simp [natDec_ne_nil])]
  simp only [hrun2]
  rw [if_neg (by
    simp only [List.isEmpty_eq_true]
    intro hnil
    have hlen := natDecPad_length (e + 1) (a % 10 ^ (e + 1))
    rw [hnil] at hlen
    simp at hlen)]
  rw [digitsVal_natDec, digitsVal_natDecPad, natDecPad_length]
  have hmod : a % 10 ^ (e + 1) % 10 ^ (e + 1) = a % 10 ^ (e + 1) :=
    Nat.mod_mod_of_dvd a (dvd_refl _)
  have hsum : a / 10 ^ (e + 1) * 10 ^ (e + 1) + a % 10 ^ (e + 1) = a := by
    rw [Nat.mul_comm]
    exact Nat.div_add_mod a (10 ^ (e + 1))
  rw [hmod, hsum]
  simp

/-- Reading a rendered float recovers it whenever the remainder cannot extend
the number. -/
theorem readNum_decRender (m : Int) (e : Nat) (rest : Str) (h : numSafe rest = true) :
    readNum (decRender m e ++ rest) = some (.dec m e, rest) := by
  by_cases hneg : m < 0
  · have harg : decRender m e ++ rest
        = '-' :: (natDec (m.natAbs / 10 ^ (e + 1))
            ++ ('.' :: (natDecPad (m.natAbs % 10 ^ (e + 1)) (e + 1) ++ rest))) := by
      simp [decRender, hneg, List.append_assoc]
    rw [harg]
    show readNumCore true (natDec (m.natAbs / 10 ^ (e + 1))
        ++ ('.' :: (natDecPad (m.natAbs % 10 ^ (e + 1)) (e + 1) ++ rest))) = _
    rw [readNumCore_dec true m.natAbs e rest h]
    have hval : (if (true : Bool) then -(m.natAbs : Int) else (m.natAbs : Int)) = m := by
      rw [if_pos rfl]
      omega
    rw [hval]
  · obtain ⟨c0, t0, hn0, hc0⟩ := natDec_head (m.natAbs / 10 ^ (e + 1))
    obtain ⟨_, _, _, hminus, _, _⟩ := isDig_not_special c0 hc0
    have harg : decRender m e ++ rest
        = c0 :: (t0 ++ ('.' :: (natDecPad (m.natAbs % 10 ^ (e + 1)) (e + 1) ++ rest))) := by
      simp [decRender, hneg, hn0, List.append_assoc]
    rw [harg, readNum_no_sign c0 _ hminus]
    rw [show c0 :: (t0 ++ ('.' :: (natDecPad (m.natAbs % 10 ^ (e + 1)) (e + 1) ++ rest)))
        = natDec (m.natAbs / 10 ^ (e + 1))
            ++ ('.' :: (natDecPad (m.natAbs % 10 ^ (e + 1)) (e + 1) ++ rest)) from by
      rw [hn0, List.cons_append]]
    rw [readNumCore_dec false m.natAbs e rest h]
    have hval : (if (false : Bool) then -(m.natAbs : Int) else (m.natAbs : Int)) = m := by
      rw [if_neg (by simp)]
      omega
    rw [hval]

/-- `hexDigVal` inverts `hexChar` below 16. -/
theorem hexDigVal_hexChar (k : Nat) (h : k < 16) : hexDigVal (hexChar k) = some k := by
  interval_cases k <;> decide

/-- Parsing one escaped character pushes exactly that character. -/
theorem readStrBody_esc (c : Char) (rest acc : Str) :
    readStrBody (escChar c ++ rest) acc = readStrBody rest (c :: acc) := by
  by_cases h1 : c = '"'
  · subst h1; rfl
  by_cases h2 : c = '\\'
  · subst h2; rfl
  by_cases h3 : c = '\n'
  · subst h3; rfl
  by_cases h4 : c = '\r'
  · subst h4; rfl
  by_cases h5 : c = '\t'
  · subst h5; rfl
  by_cases h6 : c = Char.ofNat 8
  · subst h6; rfl
  by_cases h7 : c = Char.ofNat 12
  · subst h7; rfl
  by_cases hlt : c.toNat < 32
  · have hesc : escChar c
        = ['\\', 'u', '0', '0', hexChar (c.toNat / 16), hexChar (c.toNat % 16)] := by
      simp [escChar, h1, h2, h3, h4, h5, h6, h7, hlt]
    rw [hesc]
    show readStrBody
      ('\\' :: 'u' :: '0' :: '0' :: hexChar (c.toNat / 16) :: hexChar (c.toNat % 16) :: rest)
      acc = _
    rw [readStrBody]
    rw [if_neg (by decide), if_pos rfl]
    have hhex0 : hexDigVal '0' = some 0 := by decide
    rw [hhex0, hexDigVal_hexChar (c.toNat / 16) (by omega),
        hexDigVal_hexChar (c.toNat % 16) (by omega)]
    show readStrBody rest
      (Char.ofNat (((0 * 16 + 0) * 16 + c.toNat / 16) * 16 + c.toNat % 16) :: acc) = _
    have harith : ((0 * 16 + 0) * 16 + c.toNat / 16) * 16 + c.toNat % 16 = c.toNat := by
      omega
    rw [harith, Char.ofNat_toNat]
  · have hesc : escChar c = [c] := by
      simp [escChar, h1, h2, h3, h4, h5, h6, h7, hlt]
    rw [hesc]
    show readStrBody (c :: rest) acc = _
    rw [readStrBody.eq_def]
    simp only [if_neg h1, if_neg h2]

/-- Parsing a rendered string body stops at the closing quote and recovers
the string. -/
theorem readStrBody_flat (s : Str) : ∀ (acc rest : Str),
    readStrBody (s.flatMap escChar ++ '"' :: rest) acc = some (acc.reverse ++ s, rest) := by
  induction s with
  | nil =>
      intro acc rest
      show readStrBody ('"' :: rest) acc = _
      rw [readStrBody.eq_def]
      simp
  | cons c cs ih =>
      intro acc rest
      rw [List.flatMap_cons, List.append_assoc, readStrBody_esc, ih]
      simp

/-- A whitespace head is skipped. -/
theorem skipSpace_cons_space (c : Char) (x : Str) (h : isSpace c = true) :
    skipSpace (c :: x) = skipSpace x := by
  rw [skipSpace.eq_def]
  simp [h]

/-- A non-whitespace head stops the skipping. -/
theorem skipSpace_not_space (c : Char) (x : Str) (h : isSpace c = false) :
    skipSpace (c :: x) = c :: x := by
  rw [skipSpace.eq_def]
  simp [h]

/-- An indentation run is skipped whole. -/
theorem skipSpace_spaces (k : Nat) (x : Str) : skipSpace (spaces k ++ x) = skipSpace x := by
  induction k with
  | zero => rfl
  | succ n ih =>
      show skipSpace (' ' :: (spaces n ++ x)) = _
      rw [skipSpace_cons_space _ _ (by decide), ih]

/-- Every rendered value begins with a character that is no whitespace and
closes no bracket. -/
theorem dumpVal_head (ind : Nat) (v : PyVal) :
    ∃ c t, dumpVal ind v = c :: t ∧ isSpace c = false ∧ c ≠ ']' ∧ c ≠ '\x7d' := by
  cases v with
  | none => refine ⟨'n', _, rfl, ?_, ?_, ?_⟩ <;> decide
  | bool b =>
      cases b with
      | true => refine ⟨'t', _, rfl, ?_, ?_, ?_⟩ <;> decide
      | false => refine ⟨'f', _, rfl, ?_, ?_, ?_⟩ <;> decide
  | str s =>
      refine ⟨'"', _, rfl, ?_, ?_, ?_⟩ <;> decide
  | int n =>
      by_cases hneg : n < 0
      · refine ⟨'-', natDec n.natAbs, ?_, by decide, by decide, by decide⟩
        simp [dumpVal, intDec, hneg]
      · obtain ⟨c0, t0, h0, hc0⟩ := natDec_head n.natAbs
        obtain ⟨hsp, hbr, hbc, _⟩ := isDig_not_special c0 hc0
        refine ⟨c0, t0, ?_, hsp, hbr, hbc⟩
        simp [dumpVal, intDec, hneg, h0]
  | dec m e =>
      by_cases hneg : m < 0
      · refine ⟨'-', natDec (m.natAbs / 10 ^ (e + 1))
          ++ '.' :: natDecPad (m.natAbs % 10 ^ (e + 1)) (e + 1), ?_,
          by decide, by decide, by decide⟩
        simp [dumpVal, decRender, hneg]
      · obtain ⟨c0, t0, h0, hc0⟩ := natDec_head (m.natAbs / 10 ^ (e + 1))
        obtain ⟨hsp, hbr, hbc, _⟩ := isDig_not_special c0 hc0
        refine ⟨c0, t0 ++ '.' :: natDecPad (m.natAbs % 10 ^ (e + 1)) (e + 1), ?_,
          hsp, hbr, hbc⟩
        simp [dumpVal, decRender, hneg, h0]
  | list xs =>
      cases xs with
      | nil => refine ⟨'[', _, rfl, ?_, ?_, ?_⟩ <;> decide
      | cons x xs => refine ⟨'[', _, rfl, ?_, ?_, ?_⟩ <;> decide
  | dict fs =>
      cases fs with
      | nil => refine ⟨'\x7b', _, rfl, ?_, ?_, ?_⟩ <;> decide
      | cons f fs =>
          obtain ⟨k, w⟩ := f
          refine ⟨'\x7b', _, rfl, ?_, ?_, ?_⟩ <;> decide

/-- A rendered value is never empty. -/
theorem dumpVal_length_pos (ind : Nat) (v : PyVal) : 1 ≤ (dumpVal ind v).length := by
  obtain ⟨c, t, hd, _, _, _⟩ := dumpVal_head ind v
  rw [hd]
  simp

/-- `skipSpace` leaves a rendered value (and whatever follows) alone. -/
theorem skipSpace_dump (ind : Nat) (v : PyVal) (x : Str) :
    skipSpace (dumpVal ind v ++ x) = dumpVal ind v ++ x := by
  obtain ⟨c, t, hd, hsp, _, _⟩ := dumpVal_head ind v
  rw [hd, List.cons_append, skipSpace_not_space _ _ hsp]

/-- The value reader only looks at its input through `skipSpace`. -/
theorem readVal_skip (fuel : Nat) (cs1 cs2 : Str) (h : skipSpace cs1 = skipSpace cs2) :
    readVal fuel cs1 = readVal fuel cs2 := by
  cases fuel with
  | zero => rfl
  | succ f => rw [readVal, readVal, h]

/-- The element reader only looks at its input through `skipSpace`. -/
theorem readItems_skip (fuel : Nat) (cs1 cs2 : Str) (h : skipSpace cs1 = skipSpace cs2) :
    readItems fuel cs1 = readItems fuel cs2 := by
  cases fuel with
  | zero => rfl
  | succ f => rw [readItems, readItems, readVal_skip f cs1 cs2 h]

/-- The member reader only looks at its input through `skipSpace`. -/
theorem readEntries_skip (fuel : Nat) (cs1 cs2 : Str) (h : skipSpace cs1 = skipSpace cs2) :
    readEntries fuel cs1 = readEntries fuel cs2 := by
  cases fuel with
  | zero => rfl
  | succ f => rw [readEntries, readEntries, h]

/-- The reader's array branch, written out (definitional). -/
theorem readVal_arr (f : Nat) (r : Str) :
    readVal (f + 1) ('[' :: r)
      = (match skipSpace r with
         | ']' :: r2 => some (.list [], r2)
         | r2 => (readItems f r2).map (fun p => (.list p.1, p.2))) := rfl

/-- The reader's object branch, written out (definitional). -/
theorem readVal_obj (f : Nat) (r : Str) :
    readVal (f + 1) ('\x7b' :: r)
      = (match skipSpace r with
         | '\x7d' :: r2 => some (.dict [], r2)
         | r2 => (readEntries f r2).map (fun p => (.dict p.1, p.2))) := rfl

/-- The reader's string branch, written out (definitional). -/
theorem readVal_strq (f : Nat) (r : Str) :
    readVal (f + 1) ('"' :: r) = (readStrBody r []).map (fun p => (.str p.1, p.2)) := rfl

/-- The value reader sends any input starting with a sign or digit to the
number reader. -/
theorem readVal_to_num (f : Nat) (c : Char) (t : Str)
    (hsp : isSpace c = false) (hn : c ≠ 'n') (ht : c ≠ 't') (hf : c ≠ 'f') (hq : c ≠ '"')
    (hbk : c ≠ '[') (hbc : c ≠ '\x7b') (hg : (c = '-' || isDig c) = true) :
    readVal (f + 1) (c :: t) = readNum (c :: t) := by
  rw [readVal, skipSpace_not_space c t hsp]
  split
  · rename_i heq
    injection heq with h1 _
    exact absurd h1 hn
  · rename_i heq
    injection heq with h1 _
    exact absurd h1 ht
  · rename_i heq
    injection heq with h1 _
    exact absurd h1 hf
  · rename_i heq
    injection heq with h1 _
    exact absurd h1 hq
  · rename_i heq
    injection heq with h1 _
    exact absurd h1 hbk
  · rename_i heq
    injection heq with h1 _
    exact absurd h1 hbc
  · rename_i c2 r heq
    injection heq with h1 h2
    subst h1
    subst h2
    rw [if_pos hg]
  · rename_i heq
    cases heq

mutual
/-- Reading back a rendered value recovers it, for any remainder that cannot
extend a number and any sufficient fuel. -/
theorem rt_val : ∀ (v : PyVal) (ind fuel : Nat) (rest : Str),
    (dumpVal ind v).length < fuel → numSafe rest = true →
    readVal fuel (dumpVal ind v ++ rest) = some (v, rest)
  | .none, ind, fuel, rest, hfu, _ => by
      cases fuel with
      | zero => exact absurd hfu (by simp)
      | succ f => rfl
  | .bool true, ind, fuel, rest, hfu, _ => by
      cases fuel with
      | zero => exact absurd hfu (by simp)
      | succ f => rfl
  | .bool false, ind, fuel, rest, hfu, _ => by
      cases fuel with
      | zero => exact absurd hfu (by simp)
      | succ f => rfl
  | .str s, ind, fuel, rest, hfu, _ => by
      cases fuel with
      | zero => exact absurd hfu (by simp)
      | succ f =>
          have harg : dumpVal ind (.str s) ++ rest
              = '"' :: (s.flatMap escChar ++ ('"' :: rest)) := by
            simp [dumpVal, dumpStr]
          rw [harg, readVal_strq, readStrBody_flat]
          simp
  | .int n, ind, fuel, rest, hfu, hsafe => by
      cases fuel with
      | zero => exact absurd hfu (by simp)
      | succ f =>
          by_cases hneg : n < 0
          · have harg : dumpVal ind (.int n) ++ rest
                = '-' :: (natDec n.natAbs ++ rest) := by
              simp [dumpVal, intDec, hneg]
            rw [harg, readVal_to_num f '-' _ (by decide) (by decide) (by decide) (by decide)
                (by decide) (by decide) (by decide) (by decide)]
            rw [show '-' :: (natDec n.natAbs ++ rest) = intDec n ++ rest from by
              simp [intDec, hneg]]
            exact readNum_intDec n rest hsafe
          · obtain ⟨c0, t0, h0, hc0⟩ := natDec_head n.natAbs
            obtain ⟨hsp, _, _, _, _, hn2, ht2, hf2, hq2, hbk2, hbc2⟩ :=
              isDig_not_special c0 hc0
            have harg : dumpVal ind (.int n) ++ rest = c0 :: (t0 ++ rest) := by
              simp [dumpVal, intDec, hneg, h0]
            rw [harg, readVal_to_num f c0 _ hsp hn2 ht2 hf2 hq2 hbk2 hbc2 (by simp [hc0])]
            rw [show c0 :: (t0 ++ rest) = intDec n ++ rest from by
              simp [intDec, hneg, h0]]
            exact readNum_intDec n rest hsafe
  | .dec m e, ind, fuel, rest, hfu, hsafe => by
      cases fuel with
      | zero => exact absurd hfu (by simp)
      | succ f =>
          by_cases hneg : m < 0
          · have harg : dumpVal ind (.dec m e) ++ rest
                = '-' :: ((natDec (m.natAbs / 10 ^ (e + 1))
                    ++ '.' :: natDecPad (m.natAbs % 10 ^ (e + 1)) (e + 1)) ++ rest) := by
              simp [dumpVal, decRender, hneg]
            rw [harg, readVal_to_num f '-' _ (by decide) (by decide) (by decide) (by decide)
                (by decide) (by decide) (by decide) (by decide)]
            rw [show '-' :: ((natDec (m.natAbs / 10 ^ (e + 1))
                    ++ '.' :: natDecPad (m.natAbs % 10 ^ (e + 1)) (e + 1)) ++ rest)
                = decRender m e ++ rest from by simp [decRender, hneg]]
            exact readNum_decRender m e rest hsafe
          · obtain ⟨c0, t0, h0, hc0⟩ := natDec_head (m.natAbs / 10 ^ (e + 1))
            obtain ⟨hsp, _, _, _, _, hn2, ht2, hf2, hq2, hbk2, hbc2⟩ :=
              isDig_not_special c0 hc0
            have harg : dumpVal ind (.dec m e) ++ rest
                = c0 :: ((t0 ++ '.' :: natDecPad (m.natAbs % 10 ^ (e + 1)) (e + 1)) ++ rest) := by
              simp [dumpVal, decRender, hneg, h0]
            rw [harg, readVal_to_num f c0 _ hsp hn2 ht2 hf2 hq2 hbk2 hbc2 (by simp [hc0])]
            rw [show c0 :: ((t0 ++ '.' :: natDecPad (m.natAbs % 10 ^ (e + 1)) (e + 1)) ++ rest)
                = decRender m e ++ rest from by simp [decRender, hneg, h0]]
            exact readNum_decRender m e rest hsafe
  | .list [], ind, fuel, rest, hfu, _ => by
      cases fuel with
      | zero => exact absurd hfu (by simp)
      | succ f => rfl
  | .list (x :: xs), ind, fuel, rest, hfu, hsafe => by
      cases fuel with
      | zero => exact absurd hfu (by simp)
      | succ f =>
          have harg : dumpVal ind (.list (x :: xs)) ++ rest
              = '[' :: ('\n' :: (spaces (ind + 2) ++ (dumpVal (ind + 2) x
                  ++ (dumpItems (ind + 2) xs ++ ('\n' :: (spaces ind ++ (']' :: rest))))))) := by
            simp [dumpVal]
          rw [harg, readVal_arr,
            skipSpace_cons_space '\n'
              (spaces (ind + 2) ++ (dumpVal (ind + 2) x ++ (dumpItems (ind + 2) xs
                ++ ('\n' :: (spaces ind ++ (']' :: rest)))))) (by decide),
            skipSpace_spaces, skipSpace_dump]
          obtain ⟨c, t, hd, _, hbr, _⟩ := dumpVal_head (ind + 2) x
          rw [hd, List.cons_append]
          have hbound : (dumpVal (ind + 2) x).length + (dumpItems (ind + 2) xs).length + 1 < f := by
            simp only [dumpVal, List.length_cons, List.length_append, spaces,
              List.length_replicate] at hfu
            omega
          split
          · rename_i r2 heq
            injection heq with h1 _
            exact absurd h1 hbr
          · rw [← List.cons_append, ← hd,
              rt_items x xs (ind + 2) f ind rest hbound]
            rfl
  | .dict [], ind, fuel, rest, hfu, _ => by
      cases fuel with
      | zero => exact absurd hfu (by simp)
      | succ f => rfl
  | .dict ((k, v) :: fs), ind, fuel, rest, hfu, hsafe => by
      cases fuel with
      | zero => exact absurd hfu (by simp)
      | succ f =>
          have harg : dumpVal ind (.dict ((k, v) :: fs)) ++ rest
              = '\x7b' :: ('\n' :: (spaces (ind + 2) ++ (dumpStr k
                  ++ (':' :: ' ' :: (dumpVal (ind + 2) v ++ (dumpEntries (ind + 2) fs
                      ++ ('\n' :: (spaces ind ++ ('\x7d' :: rest))))))))) := by
            simp [dumpVal]
          rw [harg, readVal_obj,
            skipSpace_cons_space '\n'
              (spaces (ind + 2) ++ (dumpStr k ++ (':' :: ' ' :: (dumpVal (ind + 2) v
                ++ (dumpEntries (ind + 2) fs ++ ('\n' :: (spaces ind ++ ('\x7d' :: rest))))))))
              (by decide),
            skipSpace_spaces]
          rw [show dumpStr k ++ (':' :: ' ' :: (dumpVal (ind + 2) v ++ (dumpEntries (ind + 2) fs
              ++ ('\n' :: (spaces ind ++ ('\x7d' :: rest))))))
            = '"' :: (k.flatMap escChar ++ ('"' :: (':' :: ' ' :: (dumpVal (ind + 2) v
              ++ (dumpEntries (ind + 2) fs ++ ('\n' :: (spaces ind ++ ('\x7d' :: rest)))))))) from by
            simp [dumpStr]]
          rw [skipSpace_not_space '"' _ (by decide)]
          have hbound : (dumpVal (ind + 2) v).length + (dumpEntries (ind + 2) fs).length + 2 < f := by
            simp only [dumpVal, dumpStr, List.length_cons, List.length_append, spaces,
              List.length_replicate] at hfu
            omega
          split
          · rename_i r2 heq
            injection heq with h1 _
            exact absurd h1 (by decide)
          · rw [show '"' :: (k.flatMap escChar ++ ('"' :: (':' :: ' ' :: (dumpVal (ind + 2) v
                ++ (dumpEntries (ind + 2) fs ++ ('\n' :: (spaces ind ++ ('\x7d' :: rest))))))))
              = dumpStr k ++ (':' :: ' ' :: (dumpVal (ind + 2) v ++ (dumpEntries (ind + 2) fs
                ++ ('\n' :: (spaces ind ++ ('\x7d' :: rest)))))) from by simp [dumpStr]]
            rw [rt_entries k v fs (ind + 2) f ind rest hbound]
            rfl
  termination_by v _ _ _ _ _ => sizeOf v
/-- Reading back rendered array elements (with their separators and the
closing bracket at any indentation) recovers the element list. -/
theorem rt_items : ∀ (x : PyVal) (xs : List PyVal) (ind fuel j : Nat) (rest : Str),
    (dumpVal ind x).length + (dumpItems ind xs).length + 1 < fuel →
    readItems fuel
        (dumpVal ind x ++ (dumpItems ind xs ++ ('\n' :: (spaces j ++ (']' :: rest)))))
      = some (x :: xs, rest)
  | x, [], ind, fuel, j, rest, hfu => by
      cases fuel with
      | zero => exact absurd hfu (by omega)
      | succ f =>
          have hv := rt_val x ind f ('\n' :: (spaces j ++ (']' :: rest)))
            (by simp only [dumpItems, List.length_nil] at hfu; omega) rfl
          have hss : skipSpace ('\n' :: (spaces j ++ (']' :: rest))) = ']' :: rest := by
            rw [skipSpace_cons_space '\n' _ (by decide), skipSpace_spaces,
              skipSpace_not_space ']' _ (by decide)]
          rw [readItems]
          rw [show dumpItems ind ([] : List PyVal) = [] from rfl, List.nil_append]
          rw [hv]
          simp only [Option.some_bind]
          rw [hss]
          rfl
  | x, y :: ys, ind, fuel, j, rest, hfu => by
      cases fuel with
      | zero => exact absurd hfu (by omega)
      | succ f =>
          have hlen : (dumpItems ind (y :: ys)).length
              = 2 + ind + (dumpVal ind y).length + (dumpItems ind ys).length := by
            simp only [dumpItems, List.length_cons, List.length_append, spaces,
              List.length_replicate]
            omega
          have harg : dumpVal ind x ++ (dumpItems ind (y :: ys)
                ++ ('\n' :: (spaces j ++ (']' :: rest))))
              = dumpVal ind x ++ (',' :: ('\n' :: (spaces ind ++ (dumpVal ind y
                  ++ (dumpItems ind ys ++ ('\n' :: (spaces j ++ (']' :: rest)))))))) := by
            simp [dumpItems]
          have hv := rt_val x ind f (',' :: ('\n' :: (spaces ind ++ (dumpVal ind y
              ++ (dumpItems ind ys ++ ('\n' :: (spaces j ++ (']' :: rest))))))))
            (by omega) rfl
          rw [readItems, harg, hv]
          simp only [Option.some_bind]
          rw [skipSpace_not_space ','
            ('\n' :: (spaces ind ++ (dumpVal ind y
              ++ (dumpItems ind ys ++ ('\n' :: (spaces j ++ (']' :: rest)))))))
            (by decide)]
          show (readItems f ('\n' :: (spaces ind ++ (dumpVal ind y
              ++ (dumpItems ind ys ++ ('\n' :: (spaces j ++ (']' :: rest)))))))).map
            (fun p => (x :: p.1, p.2)) = _
          rw [readItems_skip f _
            (dumpVal ind y ++ (dumpItems ind ys ++ ('\n' :: (spaces j ++ (']' :: rest)))))
            (by rw [skipSpace_cons_space '\n' _ (by decide), skipSpace_spaces])]
          rw [rt_items y ys ind f j rest (by omega)]
          rfl
  termination_by x xs _ _ _ _ _ => sizeOf x + sizeOf xs
/-- Reading back rendered object members (with their separators and the
closing brace at any indentation) recovers the member list. -/
theorem rt_entries : ∀ (k : Str) (v : PyVal) (fs : List (Str × PyVal)) (ind fuel j : Nat)
      (rest : Str),
    (dumpVal ind v).length + (dumpEntries ind fs).length + 2 < fuel →
    readEntries fuel
        (dumpStr k ++ (':' :: ' ' :: (dumpVal ind v ++ (dumpEntries ind fs
          ++ ('\n' :: (spaces j ++ ('\x7d' :: rest)))))))
      = some ((k, v) :: fs, rest)
  | k, v, [], ind, fuel, j, rest, hfu => by
      cases fuel with
      | zero => exact absurd hfu (by omega)
      | succ f =>
          have harg : dumpStr k ++ (':' :: ' ' :: (dumpVal ind v
                ++ (dumpEntries ind ([] : List (Str × PyVal))
                  ++ ('\n' :: (spaces j ++ ('\x7d' :: rest))))))
              = '"' :: (k.flatMap escChar ++ ('"' :: (':' :: ' ' :: (dumpVal ind v
                  ++ ('\n' :: (spaces j ++ ('\x7d' :: rest))))))) := by
            simp [dumpStr, dumpEntries]
          have hv := rt_val v ind f ('\n' :: (spaces j ++ ('\x7d' :: rest)))
            (by simp only [dumpEntries, List.length_nil] at hfu; omega) rfl
          rw [harg, readEntries, skipSpace_not_space '"' _ (by decide)]
          show (readStrBody (k.flatMap escChar ++ ('"' :: (':' :: ' ' :: (dumpVal ind v
              ++ ('\n' :: (spaces j ++ ('\x7d' :: rest))))))) []).bind _ = _
          rw [readStrBody_flat]
          simp only [List.reverse_nil, List.nil_append, Option.some_bind]
          rw [skipSpace_not_space ':' _ (by decide)]
          show (readVal f (' ' :: (dumpVal ind v
              ++ ('\n' :: (spaces j ++ ('\x7d' :: rest)))))).bind _ = _
          rw [readVal_skip f _ (dumpVal ind v ++ ('\n' :: (spaces j ++ ('\x7d' :: rest))))
            (by rw [skipSpace_cons_space ' ' _ (by decide)]),
            hv]
          simp only [Option.some_bind]
          rw [skipSpace_cons_space '\n' _ (by decide), skipSpace_spaces,
            skipSpace_not_space '\x7d' _ (by decide)]
          rfl
  | k, v, (k2, v2) :: fs2, ind, fuel, j, rest, hfu => by
      cases fuel with
      | zero => exact absurd hfu (by omega)
      | succ f =>
          have hlen : (dumpEntries ind ((k2, v2) :: fs2)).length
              = 2 + ind + (dumpStr k2).length + 2 + (dumpVal ind v2).length
                + (dumpEntries ind fs2).length := by
            simp only [dumpEntries, List.length_cons, List.length_append, spaces,
              List.length_replicate]
            omega
          have hks : 2 ≤ (dumpStr k2).length := by
            simp only [dumpStr, List.length_cons, List.length_append]
            omega
          have harg : dumpStr k ++ (':' :: ' ' :: (dumpVal ind v
                ++ (dumpEntries ind ((k2, v2) :: fs2)
                  ++ ('\n' :: (spaces j ++ ('\x7d' :: rest))))))
              = '"' :: (k.flatMap escChar ++ ('"' :: (':' :: ' ' :: (dumpVal ind v
                  ++ (',' :: ('\n' :: (spaces ind ++ (dumpStr k2 ++ (':' :: ' '
                    :: (dumpVal ind v2 ++ (dumpEntries ind fs2
                      ++ ('\n' :: (spaces j ++ ('\x7d' :: rest)))))))))))))) := by
            simp [dumpStr, dumpEntries]
          have hv := rt_val v ind f (',' :: ('\n' :: (spaces ind ++ (dumpStr k2
              ++ (':' :: ' ' :: (dumpVal ind v2 ++ (dumpEntries ind fs2
                ++ ('\n' :: (spaces j ++ ('\x7d' :: rest))))))))))
            (by omega) rfl
          rw [harg, readEntries, skipSpace_not_space '"' _ (by decide)]
          show (readStrBody (k.flatMap escChar ++ ('"' :: (':' :: ' ' :: (dumpVal ind v
              ++ (',' :: ('\n' :: (spaces ind ++ (dumpStr k2 ++ (':' :: ' '
                :: (dumpVal ind v2 ++ (dumpEntries ind fs2
                  ++ ('\n' :: (spaces j ++ ('\x7d' :: rest)))))))))))))) []).bind _ = _
          rw [readStrBody_flat]
          simp only [List.reverse_nil, List.nil_append, Option.some_bind]
          rw [skipSpace_not_space ':' _ (by decide)]
          show (readVal f (' ' :: (dumpVal ind v ++ (',' :: ('\n' :: (spaces ind
              ++ (dumpStr k2 ++ (':' :: ' ' :: (dumpVal ind v2 ++ (dumpEntries ind fs2
                ++ ('\n' :: (spaces j ++ ('\x7d' :: rest))))))))))))).bind _ = _
          rw [readVal_skip f _
            (dumpVal ind v ++ (',' :: ('\n' :: (spaces ind
              ++ (dumpStr k2 ++ (':' :: ' ' :: (dumpVal ind v2 ++ (dumpEntries ind fs2
                ++ ('\n' :: (spaces j ++ ('\x7d' :: rest)))))))))))
            (by rw [skipSpace_cons_space ' ' _ (by decide)]),
            hv]
          simp only [Option.some_bind]
          rw [skipSpace_not_space ','
            ('\n' :: (spaces ind ++ (dumpStr k2 ++ (':' :: ' ' :: (dumpVal ind v2
              ++ (dumpEntries ind fs2 ++ ('\n' :: (spaces j ++ ('\x7d' :: rest)))))))))
            (by decide)]
          show (readEntries f ('\n' :: (spaces ind ++ (dumpStr k2 ++ (':' :: ' '
              :: (dumpVal ind v2 ++ (dumpEntries ind fs2
                ++ ('\n' :: (spaces j ++ ('\x7d' :: rest)))))))))).map
            (fun p => ((k, v) :: p.1, p.2)) = _
          rw [readEntries_skip f _
            (dumpStr k2 ++ (':' :: ' ' :: (dumpVal ind v2 ++ (dumpEntries ind fs2
              ++ ('\n' :: (spaces j ++ ('\x7d' :: rest)))))))
            (by rw [skipSpace_cons_space '\n' _ (by decide), skipSpace_spaces])]
          rw [rt_entries k2 v2 fs2 ind f j rest (by omega)]
          rfl
  termination_by _ v fs _ _ _ _ _ => sizeOf v + sizeOf fs
end

/-- Parsing any rendered value back with the document loader recovers it exactly. -/
theorem json_loads_dump (v : PyVal) : json_loads (dumpVal 0 v) = some v := by
  have h := rt_val v 0 ((dumpVal 0 v).length + 1) [] (by omega) rfl
  rw [List.append_nil] at h
  unfold json_loads
  rw [h]
  rfl

/-- C8: serializing any list of N output records with save_to_json and parsing the
written JSON document back yields a list of exactly the N encoded records, in order
and field for field: the write/read round-trip loses nothing. -/
theorem save_to_json_roundtrip (races : List OutputRace) :
    json_loads (save_to_json races) = some (.list (races.map OutputRace.toPy)) ∧
    (races.map OutputRace.toPy).length = races.length :=
  ⟨json_loads_dump (.list (races.map OutputRace.toPy)), by simp⟩
